import Mathlib

/-!
Verification of pcopy: request signing, authorization, discovery and content-type sniffing.

A shallow embedding of `client.go`, `server.go` and `util/content_type_writer.go`.

* Go strings and byte slices are byte sequences (`GoString`).
* Calls into the Go standard library (`crypto/hmac`, `encoding/base64`, `encoding/pem`,
  `net/http`, `mime`) are fields of `Lib` and `MimeLib`; the program is embedded over an
  arbitrary library, and `stdLib` is an executable model of the standard one, used for the
  concrete examples.
* `regexp`, `strconv.Atoi`, `fmt.Sprintf` and the `float64` arithmetic of the age check are
  embedded concretely, for the patterns and verbs that the program uses. The type `int` has
  64 bits.
* The clock `time.Now().Unix()`, the outcomes of network and file-system calls are arguments
  of the embedded functions. Log lines are kept where they tell the return points of
  `server.authorize` apart; other output (`log.Printf`, the warning of `Client.Info`) is left
  out.
* `Config` is declared outside these files: the fields that are read are taken with the
  types their uses show (`MaxRequestAge` is an integer, converted with `float64(...)`).
-/

namespace Pcopy

/-! ## Strings -/

/-- A Go string (or `[]byte`): a sequence of byte values. -/
abbrev GoString := List Nat

/-- The bytes of an ASCII literal. -/
def str (s : String) : GoString := s.toList.map Char.toNat

/-- A Go `error` value, identified by its message. -/
abbrev GoError := String

/-- Results are compared by their values. -/
instance instDecidableEqExcept {ε α : Type} [DecidableEq ε] [DecidableEq α] :
    DecidableEq (Except ε α) := fun a b =>
  match a, b with
  | .ok x, .ok y => if h : x = y then isTrue (by rw [h]) else isFalse (fun h' => h (by cases h'; rfl))
  | .error x, .error y =>
    if h : x = y then isTrue (by rw [h]) else isFalse (fun h' => h (by cases h'; rfl))
  | .ok _, .error _ => isFalse (fun h' => by cases h')
  | .error _, .ok _ => isFalse (fun h' => by cases h')

/-! ## Standard library parameters -/

/-- The standard-library functions that `client.go` and `server.go` call. -/
structure Lib where
  /-- The digest `hmac.New(sha256.New, key)` gives after `Write(data)` and `Sum(nil)`. -/
  hmacSHA256 : GoString → GoString → GoString
  /-- Function `base64.StdEncoding.EncodeToString`. -/
  encodeToString : GoString → GoString
  /-- Function `base64.StdEncoding.DecodeString`. -/
  decodeString : GoString → Except GoError GoString
  /-- What `pem.Encode` writes for a block of the given type and bytes, or its error. -/
  pemEncode : GoString → GoString → Except GoError GoString

/-! ## An executable model of the standard library -/

/-- Truncation to 32 bits. -/
def mask32 (x : Nat) : Nat := x % 4294967296

/-- Rotation of a 32-bit word to the right. -/
def rotr (n x : Nat) : Nat := mask32 ((x >>> n) ||| (x <<< (32 - n)))

def bsig0 (x : Nat) : Nat := rotr 2 x ^^^ rotr 13 x ^^^ rotr 22 x

def bsig1 (x : Nat) : Nat := rotr 6 x ^^^ rotr 11 x ^^^ rotr 25 x

def ssig0 (x : Nat) : Nat := rotr 7 x ^^^ rotr 18 x ^^^ (x >>> 3)

def ssig1 (x : Nat) : Nat := rotr 17 x ^^^ rotr 19 x ^^^ (x >>> 10)

def choose32 (x y z : Nat) : Nat := (x &&& y) ^^^ ((4294967295 - x) &&& z)

def majority32 (x y z : Nat) : Nat := (x &&& y) ^^^ (x &&& z) ^^^ (y &&& z)

/-- The round constants of SHA-256 (FIPS 180-4, section 4.2.2), in decimal. -/
def roundConstants : List Nat :=
  [1116352408, 1899447441, 3049323471, 3921009573, 961987163, 1508970993, 2453635748,
   2870763221, 3624381080, 310598401, 607225278, 1426881987, 1925078388, 2162078206,
   2614888103, 3248222580, 3835390401, 4022224774, 264347078, 604807628, 770255983,
   1249150122, 1555081692, 1996064986, 2554220882, 2821834349, 2952996808, 3210313671,
   3336571891, 3584528711, 113926993, 338241895, 666307205, 773529912, 1294757372,
   1396182291, 1695183700, 1986661051, 2177026350, 2456956037, 2730485921, 2820302411,
   3259730800, 3345764771, 3516065817, 3600352804, 4094571909, 275423344, 430227734,
   506948616, 659060556, 883997877, 958139571, 1322822218, 1537002063, 1747873779,
   1955562222, 2024104815, 2227730452, 2361852424, 2428436474, 2756734187, 3204031479,
   3329325298]

/-- The initial hash value of SHA-256 (FIPS 180-4, section 5.3.3), in decimal. -/
def initialHash : List Nat :=
  [1779033703, 3144134277, 1013904242, 2773480762, 1359893119, 2600822924, 528734635,
   1541459225]

/-- Big-endian bytes of a word: `n` bytes, the lowest one last. -/
def bigEndian : Nat → Nat → GoString
  | 0, _ => []
  | n + 1, x => bigEndian n (x / 256) ++ [x % 256]

/-- The word a big-endian byte sequence spells. -/
def wordOfBytes (bs : GoString) : Nat := bs.foldl (fun acc b => acc * 256 + b % 256) 0

/-- Cuts a sequence into pieces of `size` elements (the last one may be shorter). -/
def chunks (size : Nat) : Nat → List Nat → List (List Nat)
  | 0, _ => []
  | fuel + 1, xs =>
    if xs.isEmpty then [] else xs.take size :: chunks size fuel (xs.drop size)

/-- Padding of FIPS 180-4, section 5.1.1: a `0x80` byte, zeros up to 56 modulo 64, and the
bit length of the message in eight bytes. -/
def sha256Pad (msg : GoString) : GoString :=
  msg ++ [128] ++ List.replicate ((119 - msg.length % 64) % 64) 0
    ++ bigEndian 8 (8 * msg.length)

/-- Extends the message schedule, kept newest word first, by `n` words. -/
def extendSchedule : Nat → List Nat → List Nat
  | 0, w => w
  | n + 1, w =>
    extendSchedule n
      (mask32 (ssig1 (w.getD 1 0) + w.getD 6 0 + ssig0 (w.getD 14 0) + w.getD 15 0) :: w)

/-- The 64 words of the message schedule of one 64-byte block. -/
def schedule (block : GoString) : List Nat :=
  (extendSchedule 48 ((chunks 4 16 block).map wordOfBytes).reverse).reverse

/-- One round of the compression function on the working variables `[a, b, c, d, e, f, g, h]`;
`kw` is the sum of the round constant and the schedule word. -/
def sha256Round (s : List Nat) (kw : Nat) : List Nat :=
  match s with
  | [a, b, c, d, e, f, g, h] =>
    let t1 := mask32 (h + bsig1 e + choose32 e f g + kw)
    let t2 := mask32 (bsig0 a + majority32 a b c)
    [mask32 (t1 + t2), a, b, c, mask32 (d + t1), e, f, g]
  | _ => s

/-- The compression function: 64 rounds on one block, added to the incoming hash value. -/
def compress (hash : List Nat) (block : GoString) : List Nat :=
  let kw := List.zipWith (fun k w => k + w) roundConstants (schedule block)
  List.zipWith (fun x y => mask32 (x + y)) hash (kw.foldl sha256Round hash)

/-- SHA-256 of a byte sequence: 32 bytes. -/
def sha256 (msg : GoString) : GoString :=
  let padded := sha256Pad msg
  let hash := (chunks 64 padded.length padded).foldl compress initialHash
  hash.flatMap (bigEndian 4)

/-- HMAC (RFC 2104) with SHA-256: keys longer than a block are hashed, shorter ones are
padded with zeros to 64 bytes. -/
def hmacSHA256 (key data : GoString) : GoString :=
  let k := if key.length > 64 then sha256 key else key
  let k := k ++ List.replicate (64 - k.length) 0
  sha256 (k.map (fun b => b % 256 ^^^ 92) ++ sha256 (k.map (fun b => b % 256 ^^^ 54) ++ data))

/-- The character of a 6-bit value in the standard base64 alphabet. -/
def b64Char (i : Nat) : Nat :=
  if i < 26 then 65 + i
  else if i < 52 then 71 + i
  else if i < 62 then i - 4
  else if i = 62 then 43
  else 47

/-- The 6-bit value of a character of the standard base64 alphabet. -/
def b64Val (c : Nat) : Option Nat :=
  if 65 ≤ c ∧ c ≤ 90 then some (c - 65)
  else if 97 ≤ c ∧ c ≤ 122 then some (c - 71)
  else if 48 ≤ c ∧ c ≤ 57 then some (c + 4)
  else if c = 43 then some 62
  else if c = 47 then some 63
  else none

/-- Standard base64 with `=` padding (RFC 4648, section 4). -/
def stdEncode : GoString → GoString
  | [] => []
  | [a] => [b64Char (a % 256 / 4), b64Char (a % 4 * 16), 61, 61]
  | [a, b] =>
    [b64Char (a % 256 / 4), b64Char (a % 4 * 16 + b % 256 / 16), b64Char (b % 16 * 4), 61]
  | a :: b :: c :: rest =>
    b64Char (a % 256 / 4) :: b64Char (a % 4 * 16 + b % 256 / 16)
      :: b64Char (b % 16 * 4 + c % 256 / 64) :: b64Char (c % 64) :: stdEncode rest

/-- Decodes quanta of four characters; padding is required and ends the input. -/
def decodeQuanta : GoString → Option GoString
  | [] => some []
  | [c0, c1, 61, 61] =>
    match b64Val c0, b64Val c1 with
    | some v0, some v1 => some [v0 * 4 + v1 / 16]
    | _, _ => none
  | [c0, c1, c2, 61] =>
    match b64Val c0, b64Val c1, b64Val c2 with
    | some v0, some v1, some v2 => some [v0 * 4 + v1 / 16, v1 % 16 * 16 + v2 / 4]
    | _, _, _ => none
  | c0 :: c1 :: c2 :: c3 :: rest =>
    match b64Val c0, b64Val c1, b64Val c2, b64Val c3, decodeQuanta rest with
    | some v0, some v1, some v2, some v3, some out =>
      some ((v0 * 4 + v1 / 16) :: (v1 % 16 * 16 + v2 / 4) :: (v2 % 4 * 64 + v3) :: out)
    | _, _, _, _, _ => none
  | _ => none

/-- Standard base64 decoding as Go does it: carriage returns and line feeds are skipped, then
the text is decoded quantum by quantum. -/
def stdDecode (s : GoString) : Except GoError GoString :=
  match decodeQuanta (s.filter (fun c => c != 10 && c != 13)) with
  | some out => .ok out
  | none => .error "illegal base64 data"

/-- What `pem.Encode` writes to an in-memory buffer for a block without headers: the BEGIN
line, the base64 body in lines of 64 characters, the END line. -/
def stdPemEncode (type bytes : GoString) : Except GoError GoString :=
  let body := stdEncode bytes
  .ok (str "-----BEGIN " ++ type ++ str "-----\n"
    ++ ((chunks 64 body.length body).map (fun line => line ++ [10])).flatten
    ++ str "-----END " ++ type ++ str "-----\n")

/-- The Go standard library, executable. -/
def stdLib : Lib where
  hmacSHA256 := hmacSHA256
  encodeToString := stdEncode
  decodeString := stdDecode
  pemEncode := stdPemEncode

/-! ## fmt, strconv, strings and regexp, as the program uses them -/

/-- Decimal digits of `n`, most significant first, put in front of `acc`; `fuel` bounds the
number of digits. -/
def decimalDigits : Nat → Nat → GoString → GoString
  | 0, _, acc => acc
  | fuel + 1, n, acc =>
    if n < 10 then (48 + n) :: acc else decimalDigits fuel (n / 10) ((48 + n % 10) :: acc)

/-- The verb `%d` on a non-negative integer. -/
def formatNat (n : Nat) : GoString := decimalDigits (n + 1) n []

/-- The verb `%d` of `fmt.Sprintf` on an integer: a minus sign in front of negative ones. -/
def formatInt (t : Int) : GoString :=
  if t < 0 then 45 :: formatNat t.natAbs else formatNat t.natAbs

/-- A byte is an ASCII digit: the class `\d` of Go regular expressions. -/
def isDigit (c : Nat) : Bool := decide (48 ≤ c ∧ c ≤ 57)

/-- The number that a sequence of decimal digits spells. -/
def digitsValue (ds : GoString) : Nat := ds.foldl (fun acc c => acc * 10 + (c - 48)) 0

/-- The magnitude part of `strconv.Atoi`: a non-empty sequence of digits. -/
def parseDigits (ds : GoString) : Option Nat :=
  if ds ≠ [] ∧ ds.all isDigit then some (digitsValue ds) else none

/-- Function `strconv.Atoi` with a 64-bit `int`: an optional sign, decimal digits, and a
value that fits in 64 bits; `none` is a syntax or range error. -/
def atoi (s : GoString) : Option Int :=
  match s with
  | 45 :: ds =>
    match parseDigits ds with
    | some v => if v ≤ 9223372036854775808 then some (-(v : Int)) else none
    | none => none
  | 43 :: ds =>
    match parseDigits ds with
    | some v => if v < 9223372036854775808 then some (v : Int) else none
    | none => none
  | ds =>
    match parseDigits ds with
    | some v => if v < 9223372036854775808 then some (v : Int) else none
    | none => none

/-- Function `strings.HasPrefix`. -/
def hasPrefixOf (s pre : GoString) : Bool := pre.isPrefixOf s

/-- Function `strings.HasSuffix`. -/
def hasSuffixOf (s suf : GoString) : Bool := suf.isSuffixOf s

/-- Scans `s` from the left; `skip` bytes of a match that was just replaced are left to pass. -/
def replaceAllFrom (old new : GoString) : Nat → GoString → GoString
  | _, [] => []
  | skip + 1, _ :: cs => replaceAllFrom old new skip cs
  | 0, c :: cs =>
    if old.isPrefixOf (c :: cs) then new ++ replaceAllFrom old new (old.length - 1) cs
    else c :: replaceAllFrom old new 0 cs

/-- Function `strings.ReplaceAll` for a non-empty `old`: the non-overlapping occurrences of
`old`, found from the left, are replaced by `new`. -/
def replaceAll (s old new : GoString) : GoString := replaceAllFrom old new 0 s

/-- Submatches of `^HMAC v1 (\d+) (.+)$` in `h`, as `regexp.FindStringSubmatch` gives them:
the digits and the token. The digits are the longest run after the literal, since the byte
after them must be a space; `.` is any byte but a line feed, and `$` is the end of the text. -/
def matchAuthHeader (h : GoString) : Option (GoString × GoString) :=
  if (str "HMAC v1 ").isPrefixOf h then
    let rest := h.drop 8
    let digits := rest.takeWhile isDigit
    match rest.dropWhile isDigit with
    | 32 :: token =>
      if digits ≠ [] ∧ token ≠ [] ∧ token.all (fun c => c != 10) then some (digits, token)
      else none
    | _ => none
  else none

/-- A byte of the class `[-_a-zA-Z0-9]`. -/
def isFileIdChar (c : Nat) : Bool :=
  decide (c = 45 ∨ c = 95 ∨ (97 ≤ c ∧ c ≤ 122) ∨ (65 ≤ c ∧ c ≤ 90) ∨ (48 ≤ c ∧ c ≤ 57))

/-- Submatch of `^/clip/([-_a-zA-Z0-9]+)$` in `uri`: the file identifier. -/
def matchClip (uri : GoString) : Option GoString :=
  if (str "/clip/").isPrefixOf uri then
    let id := uri.drop 6
    if id ≠ [] ∧ id.all isFileIdChar then some id else none
  else none

/-! ## float64 -/

/-- How many low bits of `a` a `float64` cannot hold: the least `e` with `a / 2 ^ e < 2 ^ 53`. -/
def droppedBits : Nat → Nat → Nat
  | 0, _ => 0
  | fuel + 1, a => if a < 9007199254740992 then 0 else droppedBits fuel (a / 2) + 1

/-- The `float64` nearest to a natural number, ties going to the even significand, as the
natural number it is: the bits that do not fit in 53 are rounded away. -/
def roundNat (a : Nat) : Nat :=
  let e := droppedBits a a
  let q := a / 2 ^ e
  let r := a % 2 ^ e
  let up := decide (2 ^ e < 2 * r ∨ (2 * r = 2 ^ e ∧ q % 2 = 1))
  (if up then q + 1 else q) * 2 ^ e

/-- The `float64` nearest to an integer, as the integer it is. It is the conversion
`float64(x)` of an integer, and the rounding of a difference of integer-valued `float64`
values. -/
def roundFloat64 (x : Int) : Int := x.sign * (roundNat x.natAbs : Int)

/-! ## server.go -/

/-- The fields of `Config` that the embedded functions read. -/
structure Config where
  Key : GoString
  MaxRequestAge : Int
  CacheDir : GoString

/-- The fields of an `http.Request` as the server reads them. `Authorization` is
`r.Header.Get("Authorization")`, empty when the header is absent. -/
structure Request where
  Method : GoString
  RequestURI : GoString
  Authorization : GoString
  hasBody : Bool

/-- The log line `server.authorize` writes before it returns `invalidAuthError`. -/
inductive AuthLog where
  | authHeaderMissing
  | hmacNumberConversion
  | hmacBase64Conversion
  | hmacInvalid
  | hmacRequestAgeMismatch
  deriving DecidableEq, Repr

/-- The byte string that is signed: `fmt.Sprintf("%d:%s:%s", timestamp, method, path)`. -/
def descriptor (timestamp : Int) (method path : GoString) : GoString :=
  formatInt timestamp ++ [58] ++ method ++ [58] ++ path

/-- Function `subtle.ConstantTimeCompare`: 1 when the slices are equal, 0 otherwise. -/
def constantTimeCompare (x y : GoString) : Nat := if x = y then 1 else 0

/-- The age check `math.Abs(float64(now) - float64(timestamp)) > float64(MaxRequestAge)`. -/
def requestAgeMismatch (now timestamp maxRequestAge : Int) : Bool :=
  decide (roundFloat64 maxRequestAge
    < |roundFloat64 (roundFloat64 now - roundFloat64 timestamp)|)

/-- Method `server.authorize`, with `now` for `time.Now().Unix()`. `Except.ok ()` is
`return nil`; `Except.error l` is `return invalidAuthError` after the log line `l`. -/
def server.authorize (L : Lib) (config : Config) (now : Int) (r : Request) : Except AuthLog Unit :=
  match matchAuthHeader r.Authorization with
  | none => .error .authHeaderMissing
  | some (digits, token) =>
    match atoi digits with
    | none => .error .hmacNumberConversion
    | some timestamp =>
      match L.decodeString token with
      | .error _ => .error .hmacBase64Conversion
      | .ok hash =>
        let data := descriptor timestamp r.Method r.RequestURI
        let rehash := L.hmacSHA256 config.Key data
        if constantTimeCompare hash rehash ≠ 1 then .error .hmacInvalid
        else if requestAgeMismatch now timestamp config.MaxRequestAge then
          .error .hmacRequestAgeMismatch
        else .ok ()

/-- Outcomes of the file-system and stream calls of `handleClip`: `true` is a nil error. -/
structure ClipEnv where
  mkdirAll : Bool
  openFile : Bool
  createFile : Bool
  copy : Bool
  closeBody : Bool

/-- A call `handleClip` makes on the file system. -/
inductive FsCall where
  | mkdirAll (dir : GoString)
  | openFile (file : GoString)
  | createFile (file : GoString)
  deriving DecidableEq, Repr

/-- How `handleClip` ends: `fail code` is `s.fail` with that status, `done` is a return
without `WriteHeader` (status 200), and `failNilError` is the call `s.fail(..., err)` with a
nil `err` after a failed `r.Body.Close()`. -/
inductive ClipStatus where
  | fail (code : Nat)
  | done
  | failNilError
  deriving DecidableEq, Repr

/-- What `handleClip` did: how it ended and its file-system calls, in order. -/
structure ClipResult where
  status : ClipStatus
  calls : List FsCall
  deriving DecidableEq, Repr

/-- Method `server.handleClip`. -/
def server.handleClip (L : Lib) (config : Config) (env : ClipEnv) (now : Int) (r : Request) :
    ClipResult :=
  match server.authorize L config now r with
  | .error _ => ⟨.fail 401, []⟩
  | .ok _ =>
    if !env.mkdirAll then ⟨.fail 500, [.mkdirAll config.CacheDir]⟩
    else
      match matchClip r.RequestURI with
      | none => ⟨.fail 400, [.mkdirAll config.CacheDir]⟩
      | some fileId =>
        let file := config.CacheDir ++ [47] ++ fileId
        if r.Method = str "GET" then
          if !env.openFile then ⟨.fail 404, [.mkdirAll config.CacheDir, .openFile file]⟩
          else if !env.copy then ⟨.fail 500, [.mkdirAll config.CacheDir, .openFile file]⟩
          else ⟨.done, [.mkdirAll config.CacheDir, .openFile file]⟩
        else if r.Method = str "PUT" then
          if !env.createFile then
            ⟨.fail 500, [.mkdirAll config.CacheDir, .createFile file]⟩
          else if r.hasBody then
            if !env.copy then ⟨.fail 500, [.mkdirAll config.CacheDir, .createFile file]⟩
            else if !env.closeBody then
              ⟨.failNilError, [.mkdirAll config.CacheDir, .createFile file]⟩
            else ⟨.done, [.mkdirAll config.CacheDir, .createFile file]⟩
          else ⟨.done, [.mkdirAll config.CacheDir, .createFile file]⟩
        else ⟨.done, [.mkdirAll config.CacheDir]⟩

/-! ## client.go -/

/-- The parts of a parsed `url.URL` that matter here. -/
structure URL where
  Path : GoString
  RawQuery : GoString

/-- The fields of an `http.Request` as the client builds it. -/
structure ClientRequest where
  Method : GoString
  URL : URL

/-- Method `URL.RequestURI` for a non-empty path that needs no escaping: the request target
the client puts on the request line, which the server reads back as `r.RequestURI`. -/
def URL.requestURI (u : URL) : GoString :=
  if u.RawQuery = [] then u.Path else u.Path ++ [63] ++ u.RawQuery

/-- The byte string `Client.addAuthHeader` signs at clock time `timestamp`. -/
def clientDescriptor (timestamp : Int) (req : ClientRequest) : GoString :=
  descriptor timestamp req.Method req.URL.Path

/-- The byte string `server.authorize` recomputes the MAC over. -/
def serverDescriptor (timestamp : Int) (r : Request) : GoString :=
  descriptor timestamp r.Method r.RequestURI

/-- Method `Client.addAuthHeader`, with `timestamp` for `time.Now().Unix()`: the value it
sets for the `Authorization` header. -/
def Client.addAuthHeader (L : Lib) (key : GoString) (timestamp : Int) (req : ClientRequest) :
    GoString :=
  let data := descriptor timestamp req.Method req.URL.Path
  let hashBase64 := L.encodeToString (L.hmacSHA256 key data)
  str "HMAC v1 " ++ formatInt timestamp ++ [32] ++ hashBase64

/-- The request the server reads when the client sends `req` with the header of
`Client.addAuthHeader`. -/
def received (L : Lib) (key : GoString) (timestamp : Int) (req : ClientRequest) : Request :=
  { Method := req.Method
    RequestURI := req.URL.requestURI
    Authorization := Client.addAuthHeader L key timestamp req
    hasBody := false }

/-- Type `infoResponse`: the decoded discovery body. -/
structure infoResponse where
  Version : Int
  Salt : GoString
  deriving DecidableEq, Repr

/-- Type `Info`. -/
structure Info where
  Cert : GoString
  Salt : GoString
  deriving DecidableEq, Repr

/-- The `infoResponse` that `encoding/json` decodes from a body without the salt field, such
as `{"version":1}`: the field keeps the zero value of its type, the empty string. -/
def infoResponseWithoutSalt : infoResponse := ⟨1, []⟩

/-- Method `Client.retrieveInfo`: `get` is the outcome of `client.Get` (the response body),
`jsonDecode` is `json.NewDecoder(resp.Body).Decode` into an `infoResponse`. -/
def Client.retrieveInfo (jsonDecode : GoString → Except GoError infoResponse)
    (get : Except GoError GoString) : Except GoError infoResponse :=
  match get with
  | .error err => .error err
  | .ok body => jsonDecode body

/-- The loop of `Client.retrieveCert` over the peer certificates, `b` being the buffer. -/
def encodeCerts (L : Lib) : List GoString → GoString → Except GoError GoString
  | [], b => .ok b
  | cert :: rest, b =>
    match L.pemEncode (str "CERTIFICATE") cert with
    | .error err => .error err
    | .ok block => encodeCerts L rest (b ++ block)

/-- Method `Client.retrieveCert`: `dial` is the outcome of `tls.Dial`, the raw bytes of the
certificates the peer presented, in order. -/
def Client.retrieveCert (L : Lib) (dial : Except GoError (List GoString)) : Except GoError GoString :=
  match dial with
  | .error err => .error err
  | .ok peerCertificates => encodeCerts L peerCertificates []

/-- The end of `Client.Info`: the salt is decoded and the `Info` is built. -/
def finishInfo (L : Lib) (info : infoResponse) (cert : GoString) : Except GoError Info :=
  match L.decodeString info.Salt with
  | .error err => .error err
  | .ok salt => .ok { Salt := salt, Cert := cert }

/-- Method `Client.Info`: `secure` and `insecure` are the outcomes of `retrieveInfo` with
the verifying and the non-verifying HTTP client, `dial` the outcome of `tls.Dial`. -/
def Client.Info (L : Lib) (secure insecure : Except GoError infoResponse)
    (dial : Except GoError (List GoString)) : Except GoError Info :=
  match secure with
  | .ok info => finishInfo L info []
  | .error _ =>
    match insecure with
    | .error err => .error err
    | .ok info =>
      match Client.retrieveCert L dial with
      | .error err => .error err
      | .ok cert => finishInfo L info cert

/-! ## util/content_type_writer.go -/

/-- The functions of `net/http` and `mime` that `ContentTypeWriter.Write` calls. -/
structure MimeLib where
  /-- Function `http.DetectContentType`. -/
  detectContentType : GoString → GoString
  /-- The media type that `mime.ParseMediaType` returns, or its error. -/
  parseMediaType : GoString → Except GoError GoString
  /-- Function `mime.ExtensionsByType`. -/
  extensionsByType : GoString → Except GoError (List GoString)
  /-- Function `mime.FormatMediaType`. -/
  formatMediaType : GoString → List (GoString × GoString) → GoString

/-- An `http.ResponseWriter`: its header map (one value per key) and the bytes written. -/
structure ResponseWriter where
  header : GoString → Option GoString
  body : GoString

/-- Method `Header().Set`. -/
def ResponseWriter.setHeader (w : ResponseWriter) (key value : GoString) : ResponseWriter :=
  { w with header := fun k => if k = key then some value else w.header k }

/-- Method `Write` of the underlying writer. -/
def ResponseWriter.write (w : ResponseWriter) (p : GoString) : ResponseWriter :=
  { w with body := w.body ++ p }

/-- Type `ContentTypeWriter`. -/
structure ContentTypeWriter where
  w : ResponseWriter
  filename : GoString
  download : Bool
  sniffed : Bool

/-- Function `NewContentTypeWriter`. -/
def NewContentTypeWriter (w : ResponseWriter) (filename : GoString) (download : Bool) :
    ContentTypeWriter :=
  ⟨w, filename, download, false⟩

/-- The map `contentTypeExtOverrides`. -/
def contentTypeExtOverrides (key : GoString) : Option GoString :=
  if key = str "text/plain" then some (str ".txt") else none

/-- The content type `Write` settles on after `http.DetectContentType`. -/
def fixContentType (download : Bool) (contentType : GoString) : GoString :=
  if !download then
    if hasPrefixOf contentType (str "text/html") then
      replaceAll contentType (str "text/html") (str "text/plain")
    else if contentType = str "application/octet-stream" then []
    else contentType
  else contentType

/-- The extension `Write` appends to the file name of a download. -/
def downloadExt (M : MimeLib) (contentType : GoString) : GoString :=
  match M.parseMediaType contentType with
  | .ok justContentType =>
    match contentTypeExtOverrides justContentType with
    | some extension => extension
    | none =>
      match M.extensionsByType contentType with
      | .ok (extension :: _) => extension
      | _ => []
  | .error _ => []

/-- Method `ContentTypeWriter.Write`: the writer after the call. -/
def ContentTypeWriter.Write (M : MimeLib) (w : ContentTypeWriter) (p : GoString) :
    ContentTypeWriter :=
  if w.sniffed then { w with w := w.w.write p }
  else
    let contentType := fixContentType w.download (M.detectContentType p)
    let rw := if contentType ≠ [] then w.w.setHeader (str "Content-Type") contentType else w.w
    let rw :=
      if w.download then
        let ext := downloadExt M contentType
        let filename := if !hasSuffixOf w.filename ext then w.filename ++ ext else w.filename
        let disposition := M.formatMediaType (str "attachment") [(str "filename", filename)]
        rw.setHeader (str "Content-Disposition") disposition
      else rw
    { w with w := rw.write p, sniffed := true }

/-- A library for examples: every payload is detected as `text/html; charset=utf-8`, as
`http.DetectContentType` does for a payload that starts with `<html>`. -/
def htmlMimeLib : MimeLib where
  detectContentType := fun _ => str "text/html; charset=utf-8"
  parseMediaType := fun _ => .ok (str "text/html")
  extensionsByType := fun _ => .ok [str ".html"]
  formatMediaType := fun t params =>
    t ++ (params.map (fun kv => str "; " ++ kv.1 ++ str "=" ++ kv.2)).flatten

/-! ## Decimal rendering and parsing -/

theorem decimalDigits_append (fuel n : Nat) (acc : GoString) :
    decimalDigits fuel n acc = decimalDigits fuel n [] ++ acc := by
  induction fuel generalizing n acc with
  | zero => simp [decimalDigits]
  | succ fuel ih =>
    unfold decimalDigits
    by_cases h : n < 10
    · simp [h]
    · simp only [h, if_false]
      rw [ih (n / 10) ((48 + n % 10) :: acc), ih (n / 10) [48 + n % 10]]
      simp

theorem digitsValue_append_singleton (ds : GoString) (c : Nat) :
    digitsValue (ds ++ [c]) = digitsValue ds * 10 + (c - 48) := by
  simp [digitsValue, List.foldl_append]

theorem decimalDigits_spec (fuel n : Nat) (h : n < fuel) :
    decimalDigits fuel n [] ≠ [] ∧ (∀ c ∈ decimalDigits fuel n [], 48 ≤ c ∧ c ≤ 57)
      ∧ digitsValue (decimalDigits fuel n []) = n := by
  induction fuel generalizing n with
  | zero => omega
  | succ fuel ih =>
    unfold decimalDigits
    by_cases h10 : n < 10
    · simp only [h10, if_true]
      refine ⟨by simp, ?_, ?_⟩
      · intro c hc
        simp only [List.mem_singleton] at hc
        omega
      · simp [digitsValue]
    · simp only [h10, if_false]
      rw [decimalDigits_append]
      obtain ⟨_, h2, h3⟩ := ih (n / 10) (by omega)
      refine ⟨by simp, ?_, ?_⟩
      · intro c hc
        rcases List.mem_append.mp hc with hc | hc
        · exact h2 c hc
        · simp only [List.mem_singleton] at hc
          omega
      · rw [digitsValue_append_singleton, h3]
        omega

theorem formatNat_ne_nil (n : Nat) : formatNat n ≠ [] :=
  (decimalDigits_spec (n + 1) n (by omega)).1

theorem formatNat_digits (n : Nat) : ∀ c ∈ formatNat n, 48 ≤ c ∧ c ≤ 57 :=
  (decimalDigits_spec (n + 1) n (by omega)).2.1

theorem digitsValue_formatNat (n : Nat) : digitsValue (formatNat n) = n :=
  (decimalDigits_spec (n + 1) n (by omega)).2.2

theorem formatNat_injective (a b : Nat) (h : formatNat a = formatNat b) : a = b := by
  rw [← digitsValue_formatNat a, ← digitsValue_formatNat b, h]

theorem formatInt_of_nonneg (t : Int) (h : 0 ≤ t) : formatInt t = formatNat t.natAbs := by
  simp [formatInt, not_lt.mpr h]

theorem formatInt_of_neg (t : Int) (h : t < 0) : formatInt t = 45 :: formatNat t.natAbs := by
  simp [formatInt, h]

theorem formatInt_head_of_nonneg (t : Int) (h : 0 ≤ t) :
    ∃ c rest, formatInt t = c :: rest ∧ 48 ≤ c ∧ c ≤ 57 := by
  rw [formatInt_of_nonneg t h]
  have hne := formatNat_ne_nil t.natAbs
  have hd := formatNat_digits t.natAbs
  cases hf : formatNat t.natAbs with
  | nil => exact absurd hf hne
  | cons c rest =>
    rw [hf] at hd
    exact ⟨c, rest, rfl, hd c (by simp)⟩

theorem formatInt_injective (a b : Int) (h : formatInt a = formatInt b) : a = b := by
  by_cases ha : a < 0 <;> by_cases hb : b < 0
  · rw [formatInt_of_neg a ha, formatInt_of_neg b hb] at h
    have := formatNat_injective _ _ (List.cons.inj h).2
    omega
  · obtain ⟨c, rest, hc, h1, _⟩ := formatInt_head_of_nonneg b (by omega)
    rw [formatInt_of_neg a ha, hc] at h
    have := (List.cons.inj h).1
    omega
  · obtain ⟨c, rest, hc, h1, _⟩ := formatInt_head_of_nonneg a (by omega)
    rw [formatInt_of_neg b hb, hc] at h
    have := (List.cons.inj h).1
    omega
  · rw [formatInt_of_nonneg a (by omega), formatInt_of_nonneg b (by omega)] at h
    have := formatNat_injective _ _ h
    omega

theorem formatInt_no_colon (t : Int) : 58 ∉ formatInt t := by
  intro hmem
  by_cases ht : t < 0
  · rw [formatInt_of_neg t ht] at hmem
    rcases List.mem_cons.mp hmem with h | h
    · omega
    · have := formatNat_digits _ 58 h
      omega
  · rw [formatInt_of_nonneg t (by omega)] at hmem
    have := formatNat_digits _ 58 hmem
    omega

theorem isDigit_iff (c : Nat) : isDigit c = true ↔ 48 ≤ c ∧ c ≤ 57 := by
  simp [isDigit]

theorem parseDigits_formatNat (n : Nat) : parseDigits (formatNat n) = some n := by
  unfold parseDigits
  have h1 := formatNat_ne_nil n
  have h2 : (formatNat n).all isDigit = true := by
    rw [List.all_eq_true]
    intro c hc
    exact (isDigit_iff c).mpr (formatNat_digits n c hc)
  simp [h1, h2, digitsValue_formatNat]

/-- On a sequence of digits `strconv.Atoi` gives the value, when it is below `2 ^ 63`. -/
theorem atoi_digits (ds : GoString) (hne : ds ≠ []) (hd : ∀ c ∈ ds, 48 ≤ c ∧ c ≤ 57) :
    atoi ds = if digitsValue ds < 9223372036854775808 then some (digitsValue ds : Int)
      else none := by
  have hall : ds.all isDigit = true := by
    rw [List.all_eq_true]
    intro c hc
    exact (isDigit_iff c).mpr (hd c hc)
  have hp : parseDigits ds = some (digitsValue ds) := by simp [parseDigits, hne, hall]
  cases ds with
  | nil => exact absurd rfl hne
  | cons c rest =>
    have hc := hd c (by simp)
    unfold atoi
    split
    · rename_i heq
      have := (List.cons.inj heq).1
      omega
    · rename_i heq
      have := (List.cons.inj heq).1
      omega
    · rw [hp]

theorem atoi_formatInt (t : Int) (h0 : 0 ≤ t) (h1 : t < 9223372036854775808) :
    atoi (formatInt t) = some t := by
  rw [formatInt_of_nonneg t h0, atoi_digits _ (formatNat_ne_nil _) (formatNat_digits _),
    digitsValue_formatNat]
  have : t.natAbs < 9223372036854775808 := by omega
  simp only [this, if_true]
  congr 1
  omega

/-! ## The patterns -/

theorem takeWhile_append_stop (p : Nat → Bool) (ds : List Nat) (a : Nat) (t : List Nat)
    (hds : ∀ c ∈ ds, p c = true) (ha : p a = false) :
    (ds ++ a :: t).takeWhile p = ds ∧ (ds ++ a :: t).dropWhile p = a :: t := by
  induction ds with
  | nil => simp [List.takeWhile, List.dropWhile, ha]
  | cons d ds ih =>
    have hd : p d = true := hds d (by simp)
    obtain ⟨h1, h2⟩ := ih (fun c hc => hds c (by simp [hc]))
    simp [List.takeWhile, List.dropWhile, hd, h1, h2]

theorem str_hmac_length : (str "HMAC v1 ").length = 8 := by decide

/-- The matcher of the authorization pattern finds exactly the headers of the form
`HMAC v1 <digits> <token>`, with one or more digits and one or more bytes other than a
line feed, and returns the two parts. -/
theorem matchAuthHeader_eq_some_iff (h digits token : GoString) :
    matchAuthHeader h = some (digits, token) ↔
      h = str "HMAC v1 " ++ digits ++ 32 :: token ∧ digits ≠ []
        ∧ (∀ c ∈ digits, 48 ≤ c ∧ c ≤ 57) ∧ token ≠ [] ∧ (∀ c ∈ token, c ≠ 10) := by
  constructor
  · intro hm
    unfold matchAuthHeader at hm
    split at hm
    · rename_i hpre
      rw [List.isPrefixOf_iff_prefix] at hpre
      obtain ⟨rest, hrest⟩ := hpre
      have hdrop : h.drop 8 = rest := by
        rw [← hrest, ← str_hmac_length, List.drop_left]
      simp only [hdrop] at hm
      split at hm
      · rename_i tok hdw
        split at hm
        · rename_i hcond
          obtain ⟨hd, ht, hall⟩ := hcond
          simp only [Option.some.injEq, Prod.mk.injEq] at hm
          obtain ⟨h1, h2⟩ := hm
          subst h2
          refine ⟨?_, ?_, ?_, ht, ?_⟩
          · rw [← hrest, ← h1, List.append_assoc, ← hdw, List.takeWhile_append_dropWhile]
          · rw [← h1]; exact hd
          · intro c hc
            rw [← h1] at hc
            exact (isDigit_iff c).mp (List.mem_takeWhile_imp hc)
          · intro c hc
            have := (List.all_eq_true.mp hall) c hc
            simpa using this
        · exact absurd hm (by simp)
      · exact absurd hm (by simp)
    · exact absurd hm (by simp)
  · rintro ⟨rfl, hne, hd, ht, hnl⟩
    unfold matchAuthHeader
    have hpre : (str "HMAC v1 ").isPrefixOf (str "HMAC v1 " ++ digits ++ 32 :: token) = true := by
      rw [List.isPrefixOf_iff_prefix, List.append_assoc]
      exact List.prefix_append _ _
    have hdrop : (str "HMAC v1 " ++ digits ++ 32 :: token).drop 8 = digits ++ 32 :: token := by
      rw [List.append_assoc, ← str_hmac_length, List.drop_left]
    obtain ⟨h1, h2⟩ := takeWhile_append_stop isDigit digits 32 token
      (fun c hc => (isDigit_iff c).mpr (hd c hc)) (by decide)
    have hall : token.all (fun c => c != 10) = true := by
      rw [List.all_eq_true]
      intro c hc
      simpa using hnl c hc
    simp only [hpre, if_true, hdrop, h1, h2]
    simp [hne, ht, hall]

/-- The matcher of the clip pattern finds exactly the targets `/clip/<id>` with a non-empty
identifier over `[-_a-zA-Z0-9]`, and returns the identifier. -/
theorem matchClip_eq_some_iff (uri id : GoString) :
    matchClip uri = some id ↔
      uri = str "/clip/" ++ id ∧ id ≠ []
        ∧ ∀ c ∈ id, c = 45 ∨ c = 95 ∨ (97 ≤ c ∧ c ≤ 122) ∨ (65 ≤ c ∧ c ≤ 90)
            ∨ (48 ≤ c ∧ c ≤ 57) := by
  have hlen : (str "/clip/").length = 6 := by decide
  constructor
  · intro hm
    unfold matchClip at hm
    split at hm
    · rename_i hpre
      rw [List.isPrefixOf_iff_prefix] at hpre
      obtain ⟨rest, hrest⟩ := hpre
      have hdrop : uri.drop 6 = rest := by
        rw [← hrest, ← hlen, List.drop_left]
      simp only [hdrop] at hm
      split at hm
      · rename_i hcond
        simp only [Option.some.injEq] at hm
        subst hm
        refine ⟨hrest.symm, hcond.1, ?_⟩
        intro c hc
        have := (List.all_eq_true.mp hcond.2) c hc
        simpa [isFileIdChar] using this
      · exact absurd hm (by simp)
    · exact absurd hm (by simp)
  · rintro ⟨rfl, hne, hall⟩
    unfold matchClip
    have hpre : (str "/clip/").isPrefixOf (str "/clip/" ++ id) = true := by
      rw [List.isPrefixOf_iff_prefix]
      exact List.prefix_append _ _
    have hdrop : (str "/clip/" ++ id).drop 6 = id := by
      rw [← hlen, List.drop_left]
    have hall' : id.all isFileIdChar = true := by
      rw [List.all_eq_true]
      intro c hc
      simpa [isFileIdChar] using hall c hc
    simp [hpre, hdrop, hne, hall']

/-! ## float64 rounding of integers -/

theorem droppedBits_of_lt (fuel a : Nat) (h : a < 9007199254740992) : droppedBits fuel a = 0 := by
  cases fuel with
  | zero => rfl
  | succ fuel => simp [droppedBits, h]

theorem div_droppedBits_ge (fuel a : Nat) (h : 4503599627370496 ≤ a) :
    4503599627370496 ≤ a / 2 ^ droppedBits fuel a := by
  induction fuel generalizing a with
  | zero => simpa [droppedBits] using h
  | succ fuel ih =>
    unfold droppedBits
    by_cases hlt : a < 9007199254740992
    · simpa [hlt] using h
    · simp only [hlt, if_false]
      have := ih (a / 2) (by omega)
      rw [pow_succ, Nat.mul_comm, ← Nat.div_div_eq_div_mul]
      exact this

theorem droppedBits_pos (a : Nat) (h : 9007199254740992 ≤ a) : 1 ≤ droppedBits a a := by
  cases a with
  | zero => omega
  | succ a =>
    unfold droppedBits
    have : ¬ (a + 1 < 9007199254740992) := by omega
    simp only [this, if_false]
    omega

theorem roundNat_of_lt (a : Nat) (h : a < 9007199254740992) : roundNat a = a := by
  unfold roundNat
  simp [droppedBits_of_lt _ _ h, Nat.mod_one]

theorem roundNat_ge (a : Nat) (h : 9007199254740992 ≤ a) : 9007199254740992 ≤ roundNat a := by
  unfold roundNat
  have hq := div_droppedBits_ge a a (by omega)
  have he := droppedBits_pos a h
  have h2 : 2 ≤ 2 ^ droppedBits a a := by
    calc 2 = 2 ^ 1 := by norm_num
      _ ≤ 2 ^ droppedBits a a := Nat.pow_le_pow_right (by norm_num) he
  simp only []
  split
  · calc 9007199254740992 = 4503599627370496 * 2 := by norm_num
      _ ≤ _ := Nat.mul_le_mul (by omega) h2
  · calc 9007199254740992 = 4503599627370496 * 2 := by norm_num
      _ ≤ _ := Nat.mul_le_mul hq h2

/-- Integers below `2 ^ 53` in magnitude are `float64` values. -/
theorem roundFloat64_of_lt (x : Int) (h : x.natAbs < 9007199254740992) : roundFloat64 x = x := by
  unfold roundFloat64
  rw [roundNat_of_lt _ h]
  exact Int.sign_mul_natAbs x

/-- Rounding keeps an integer of magnitude `2 ^ 53` or more at such a magnitude. -/
theorem roundFloat64_ge (x : Int) (h : 9007199254740992 ≤ x) :
    9007199254740992 ≤ roundFloat64 x := by
  unfold roundFloat64
  have hs : x.sign = 1 := Int.sign_eq_one_of_pos (by omega)
  have := roundNat_ge x.natAbs (by omega)
  rw [hs, one_mul]
  exact_mod_cast this

theorem roundFloat64_le_neg (x : Int) (h : x ≤ -9007199254740992) :
    roundFloat64 x ≤ -9007199254740992 := by
  unfold roundFloat64
  have hs : x.sign = -1 := Int.sign_eq_neg_one_of_neg (by omega)
  have := roundNat_ge x.natAbs (by omega)
  rw [hs]
  omega

theorem roundFloat64_neg (x : Int) (h : x < 0) : roundFloat64 x < 0 := by
  by_cases hs : x.natAbs < 9007199254740992
  · rw [roundFloat64_of_lt x hs]; exact h
  · have := roundFloat64_le_neg x (by omega)
    omega

/-- The magnitude of a rounded integer: exact below `2 ^ 53`, at least `2 ^ 53` otherwise. -/
theorem abs_roundFloat64 (x : Int) :
    (|x| < 9007199254740992 ∧ |roundFloat64 x| = |x|)
      ∨ (9007199254740992 ≤ |x| ∧ 9007199254740992 ≤ |roundFloat64 x|) := by
  by_cases hs : x.natAbs < 9007199254740992
  · left
    rw [roundFloat64_of_lt x hs]
    refine ⟨?_, rfl⟩
    rw [Int.abs_eq_natAbs]
    omega
  · right
    refine ⟨by rw [Int.abs_eq_natAbs]; omega, ?_⟩
    by_cases hx : 0 ≤ x
    · have := roundFloat64_ge x (by omega)
      rw [abs_of_nonneg (by omega)]
      exact this
    · have := roundFloat64_le_neg x (by omega)
      rw [abs_of_neg (by omega)]
      omega

/-- The age check is the exact comparison when the clock is not negative and the clock plus
the window stays below `2 ^ 53`. -/
theorem requestAgeMismatch_iff (now timestamp maxAge : Int) (hnow : 0 ≤ now)
    (hts : 0 ≤ timestamp) (hsum : now + maxAge < 9007199254740992) :
    requestAgeMismatch now timestamp maxAge = true ↔ maxAge < |now - timestamp| := by
  unfold requestAgeMismatch
  rw [decide_eq_true_iff]
  by_cases hM : maxAge < 0
  · have h1 := roundFloat64_neg maxAge hM
    have h2 := abs_nonneg (roundFloat64 (roundFloat64 now - roundFloat64 timestamp))
    have h3 := abs_nonneg (now - timestamp)
    constructor <;> intro _ <;> omega
  · have hM' : roundFloat64 maxAge = maxAge := roundFloat64_of_lt _ (by omega)
    have hnow' : roundFloat64 now = now := roundFloat64_of_lt _ (by omega)
    rw [hM', hnow']
    by_cases hsmall : timestamp < 9007199254740992
    · rw [roundFloat64_of_lt timestamp (by omega), roundFloat64_of_lt (now - timestamp) (by omega)]
    · have hT := roundFloat64_ge timestamp (by omega)
      have habs : |now - timestamp| = timestamp - now := by
        rw [abs_of_neg (by omega)]; omega
      rcases abs_roundFloat64 (now - roundFloat64 timestamp) with ⟨h1, h2⟩ | ⟨_, h2⟩
      · rw [h2, habs, abs_of_neg (by omega)]
        constructor <;> intro _ <;> omega
      · rw [habs]
        constructor <;> intro _ <;> omega

theorem droppedBits_div_lt (fuel a : Nat) (h : a < 9007199254740992 * 2 ^ fuel) :
    a / 2 ^ droppedBits fuel a < 9007199254740992 := by
  induction fuel generalizing a with
  | zero => simpa [droppedBits] using h
  | succ fuel ih =>
    unfold droppedBits
    by_cases hlt : a < 9007199254740992
    · simp [hlt]
    · simp only [hlt, if_false]
      have h2 : a / 2 < 9007199254740992 * 2 ^ fuel := by
        rw [pow_succ] at h
        omega
      have := ih (a / 2) h2
      rw [pow_succ, Nat.mul_comm, ← Nat.div_div_eq_div_mul]
      exact this

/-- The significand that is kept has at most 53 bits. -/
theorem significand_lt (a : Nat) : a / 2 ^ droppedBits a a < 9007199254740992 := by
  apply droppedBits_div_lt
  have h1 : a < 2 ^ a := Nat.lt_two_pow a
  have h2 : 2 ^ a ≤ 9007199254740992 * 2 ^ a := Nat.le_mul_of_pos_left _ (by norm_num)
  omega

/-- Bounds of the rounded value in terms of the significand. -/
theorem roundNat_bounds (a : Nat) :
    a / 2 ^ droppedBits a a * 2 ^ droppedBits a a ≤ roundNat a
      ∧ roundNat a ≤ (a / 2 ^ droppedBits a a + 1) * 2 ^ droppedBits a a := by
  unfold roundNat
  simp only []
  split
  · exact ⟨Nat.mul_le_mul_right _ (by omega), le_refl _⟩
  · exact ⟨le_refl _, Nat.mul_le_mul_right _ (by omega)⟩

/-- Rounding to `float64` is monotone. -/
theorem roundNat_mono (a b : Nat) (hab : a ≤ b) : roundNat a ≤ roundNat b := by
  by_cases hb : b < 9007199254740992
  · rw [roundNat_of_lt a (by omega), roundNat_of_lt b hb]
    exact hab
  by_cases ha : a < 9007199254740992
  · rw [roundNat_of_lt a ha]
    have := roundNat_ge b (by omega)
    omega
  have hqa := div_droppedBits_ge a a (by omega)
  have hqb := div_droppedBits_ge b b (by omega)
  have hla := significand_lt a
  have hlb := significand_lt b
  obtain ⟨ha1, ha2⟩ := roundNat_bounds a
  obtain ⟨hb1, hb2⟩ := roundNat_bounds b
  have hda := Nat.div_add_mod a (2 ^ droppedBits a a)
  have hdb := Nat.div_add_mod b (2 ^ droppedBits b b)
  have hma : a % 2 ^ droppedBits a a < 2 ^ droppedBits a a := Nat.mod_lt _ (by positivity)
  have hmb : b % 2 ^ droppedBits b b < 2 ^ droppedBits b b := Nat.mod_lt _ (by positivity)
  rcases Nat.lt_trichotomy (droppedBits a a) (droppedBits b b) with hlt | heq | hgt
  · -- a smaller exponent: the rounded value of `a` stays below `2 ^ 53 * 2 ^ e`
    have hpow : 2 * 2 ^ droppedBits a a ≤ 2 ^ droppedBits b b := by
      rw [← pow_succ']
      exact Nat.pow_le_pow_right (by norm_num) hlt
    have h1 : (a / 2 ^ droppedBits a a + 1) * 2 ^ droppedBits a a
        ≤ 9007199254740992 * 2 ^ droppedBits a a := Nat.mul_le_mul_right _ (by omega)
    have h2 : 4503599627370496 * 2 ^ droppedBits b b
        ≤ b / 2 ^ droppedBits b b * 2 ^ droppedBits b b := Nat.mul_le_mul_right _ hqb
    have h3 : 9007199254740992 * 2 ^ droppedBits a a
        ≤ 4503599627370496 * 2 ^ droppedBits b b := by omega
    omega
  · -- the same exponent
    unfold roundNat
    simp only []
    rw [← heq] at hdb hmb hqb hlb ⊢
    have hq : a / 2 ^ droppedBits a a ≤ b / 2 ^ droppedBits a a := Nat.div_le_div_right hab
    rcases Nat.lt_or_ge (a / 2 ^ droppedBits a a) (b / 2 ^ droppedBits a a) with hql | hqe
    · have h1 : (a / 2 ^ droppedBits a a + 1) * 2 ^ droppedBits a a
          ≤ b / 2 ^ droppedBits a a * 2 ^ droppedBits a a := Nat.mul_le_mul_right _ (by omega)
      have h2 : b / 2 ^ droppedBits a a * 2 ^ droppedBits a a
          ≤ (b / 2 ^ droppedBits a a + 1) * 2 ^ droppedBits a a :=
        Nat.mul_le_mul_right _ (by omega)
      split <;> split <;> omega
    · have hqeq : b / 2 ^ droppedBits a a = a / 2 ^ droppedBits a a := by omega
      rw [hqeq] at hdb ⊢
      have hr : a % 2 ^ droppedBits a a ≤ b % 2 ^ droppedBits a a := by
        rw [Nat.mul_comm] at hda hdb
        omega
      have h2 : a / 2 ^ droppedBits a a * 2 ^ droppedBits a a
          ≤ (a / 2 ^ droppedBits a a + 1) * 2 ^ droppedBits a a :=
        Nat.mul_le_mul_right _ (by omega)
      split
      · rename_i hupa
        split
        · exact le_refl _
        · rename_i hupb
          simp only [decide_eq_true_eq] at hupa hupb
          omega
      · split
        · exact h2
        · exact le_refl _
  · -- a larger exponent is impossible below `b`
    have hpow : 2 * 2 ^ droppedBits b b ≤ 2 ^ droppedBits a a := by
      rw [← pow_succ']
      exact Nat.pow_le_pow_right (by norm_num) hgt
    have h1 : 4503599627370496 * 2 ^ droppedBits a a
        ≤ a / 2 ^ droppedBits a a * 2 ^ droppedBits a a := Nat.mul_le_mul_right _ hqa
    have h2 : (b / 2 ^ droppedBits b b) * 2 ^ droppedBits b b
        ≤ 9007199254740991 * 2 ^ droppedBits b b := Nat.mul_le_mul_right _ (by omega)
    rw [Nat.mul_comm] at hda hdb
    omega

/-- The magnitude of a rounded integer is the rounded magnitude. -/
theorem abs_roundFloat64_eq (x : Int) : |roundFloat64 x| = (roundNat x.natAbs : Int) := by
  unfold roundFloat64
  rcases Int.lt_trichotomy x 0 with h | h | h
  · rw [Int.sign_eq_neg_one_of_neg h, neg_one_mul, abs_neg]
    exact abs_of_nonneg (by positivity)
  · subst h
    have : roundNat 0 = 0 := roundNat_of_lt 0 (by norm_num)
    simp [this]
  · rw [Int.sign_eq_one_of_pos h, one_mul]
    exact abs_of_nonneg (by positivity)

/-- A request within the window passes the age check when the clock and the timestamp are
below `2 ^ 53` in magnitude. -/
theorem requestAgeMismatch_of_fresh (now timestamp maxAge : Int)
    (hnow : now.natAbs < 9007199254740992) (hts : timestamp.natAbs < 9007199254740992)
    (hage : |now - timestamp| ≤ maxAge) :
    requestAgeMismatch now timestamp maxAge = false := by
  unfold requestAgeMismatch
  rw [decide_eq_false_iff_not]
  rw [roundFloat64_of_lt now hnow, roundFloat64_of_lt timestamp hts, abs_roundFloat64_eq]
  have hM : 0 ≤ maxAge := le_trans (abs_nonneg _) hage
  have hle : (now - timestamp).natAbs ≤ maxAge.natAbs := by
    rw [Int.abs_eq_natAbs] at hage
    omega
  have hmono := roundNat_mono _ _ hle
  have hMr : roundFloat64 maxAge = (roundNat maxAge.natAbs : Int) := by
    rw [← abs_roundFloat64_eq]
    unfold roundFloat64
    rcases Int.lt_trichotomy maxAge 0 with h | h | h
    · omega
    · subst h
      have : roundNat 0 = 0 := roundNat_of_lt 0 (by norm_num)
      simp [this]
    · rw [Int.sign_eq_one_of_pos h, one_mul]
      exact (abs_of_nonneg (by positivity)).symm
  rw [hMr]
  omega

/-! ## Descriptors -/

theorem append_cons_inj_of_not_mem (a : Nat) (xs xs' ys ys' : List Nat) (h1 : a ∉ xs)
    (h2 : a ∉ xs') (h : xs ++ a :: ys = xs' ++ a :: ys') : xs = xs' ∧ ys = ys' := by
  induction xs generalizing xs' with
  | nil =>
    cases xs' with
    | nil => exact ⟨rfl, (List.cons.inj h).2⟩
    | cons x xs' =>
      have := (List.cons.inj h).1
      exact absurd (by simp [this]) h2
  | cons x xs ih =>
    cases xs' with
    | nil =>
      have := (List.cons.inj h).1
      exact absurd (by simp [this]) h1
    | cons x' xs' =>
      obtain ⟨hx, hrest⟩ := List.cons.inj h
      obtain ⟨h3, h4⟩ := ih xs' (fun hm => h1 (by simp [hm])) (fun hm => h2 (by simp [hm])) hrest
      exact ⟨by rw [hx, h3], h4⟩

/-- Descriptors with colon-free methods determine the timestamp, the method and the path. -/
theorem descriptor_injective (t t' : Int) (m m' p p' : GoString) (hm : 58 ∉ m) (hm' : 58 ∉ m')
    (h : descriptor t m p = descriptor t' m' p') : t = t' ∧ m = m' ∧ p = p' := by
  unfold descriptor at h
  simp only [List.append_assoc, List.singleton_append] at h
  obtain ⟨h1, h2⟩ := append_cons_inj_of_not_mem 58 _ _ _ _ (formatInt_no_colon t)
    (formatInt_no_colon t') h
  obtain ⟨h3, h4⟩ := append_cons_inj_of_not_mem 58 _ _ _ _ hm hm' h2
  exact ⟨formatInt_injective _ _ h1, h3, h4⟩

/-- A change of exactly one of timestamp, method and path changes the descriptor. -/
theorem descriptor_ne_of_one_changed (t t' : Int) (m m' p p' : GoString)
    (hone : (t ≠ t' ∧ m = m' ∧ p = p') ∨ (t = t' ∧ m ≠ m' ∧ p = p')
      ∨ (t = t' ∧ m = m' ∧ p ≠ p')) :
    descriptor t m p ≠ descriptor t' m' p' := by
  intro h
  unfold descriptor at h
  rcases hone with ⟨h1, rfl, rfl⟩ | ⟨rfl, h2, rfl⟩ | ⟨rfl, rfl, h3⟩
  · simp only [List.append_assoc] at h
    exact h1 (formatInt_injective _ _ (List.append_cancel_right h))
  · have h' := List.append_cancel_right h
    have h'' := List.append_cancel_right h'
    exact h2 (List.append_cancel_left h'')
  · exact h3 (List.append_cancel_left h)

/-! ## Signed headers -/

theorem formatInt_no_space (t : Int) : 32 ∉ formatInt t := by
  intro hmem
  by_cases ht : t < 0
  · rw [formatInt_of_neg t ht] at hmem
    rcases List.mem_cons.mp hmem with h | h
    · omega
    · have := formatNat_digits _ 32 h
      omega
  · rw [formatInt_of_nonneg t (by omega)] at hmem
    have := formatNat_digits _ 32 hmem
    omega

/-- The header `HMAC v1 <t> <token>` matches the pattern when the timestamp is not negative
and the token is non-empty and free of line feeds. -/
theorem matchAuthHeader_signed (t : Int) (token : GoString) (ht : 0 ≤ t) (hne : token ≠ [])
    (hnl : ∀ c ∈ token, c ≠ 10) :
    matchAuthHeader (str "HMAC v1 " ++ formatInt t ++ [32] ++ token)
      = some (formatInt t, token) := by
  rw [matchAuthHeader_eq_some_iff]
  refine ⟨by simp, ?_, ?_, hne, hnl⟩
  · rw [formatInt_of_nonneg t ht]; exact formatNat_ne_nil _
  · rw [formatInt_of_nonneg t ht]; exact formatNat_digits _

/-- What the pattern finds in the header `HMAC v1 <t> <token>`, when it matches. -/
theorem matchAuthHeader_signed_inv (t : Int) (token digits token' : GoString)
    (h : matchAuthHeader (str "HMAC v1 " ++ formatInt t ++ [32] ++ token)
      = some (digits, token')) :
    0 ≤ t ∧ digits = formatInt t ∧ token' = token := by
  rw [matchAuthHeader_eq_some_iff] at h
  obtain ⟨heq, hne, hd, _, _⟩ := h
  simp only [List.append_assoc, List.singleton_append] at heq
  have heq' := List.append_cancel_left heq
  have h32 : 32 ∉ digits := fun hm => by have := hd 32 hm; omega
  obtain ⟨h1, h2⟩ := append_cons_inj_of_not_mem 32 _ _ _ _ (formatInt_no_space t) h32 heq'
  refine ⟨?_, h1.symm, h2.symm⟩
  by_contra hneg
  rw [formatInt_of_neg t (by omega)] at h1
  have := hd 45 (by rw [← h1]; simp)
  omega

/-- When `server.authorize` returns nil. -/
theorem authorize_eq_ok_iff (L : Lib) (config : Config) (now : Int) (r : Request) :
    server.authorize L config now r = .ok () ↔
      ∃ digits token timestamp, matchAuthHeader r.Authorization = some (digits, token)
        ∧ atoi digits = some timestamp
        ∧ L.decodeString token
            = .ok (L.hmacSHA256 config.Key (descriptor timestamp r.Method r.RequestURI))
        ∧ requestAgeMismatch now timestamp config.MaxRequestAge = false := by
  unfold server.authorize
  constructor
  · intro h
    split at h
    · exact absurd h (by simp)
    · rename_i digits token hm
      split at h
      · exact absurd h (by simp)
      · rename_i timestamp ha
        split at h
        · exact absurd h (by simp)
        · rename_i hash hdec
          simp only [constantTimeCompare] at h
          by_cases heq : hash = L.hmacSHA256 config.Key (descriptor timestamp r.Method r.RequestURI)
          · by_cases hage : requestAgeMismatch now timestamp config.MaxRequestAge = true
            · simp [heq, hage] at h
            · exact ⟨digits, token, timestamp, hm, ha, by rw [hdec, heq], by simpa using hage⟩
          · simp [heq] at h
  · rintro ⟨digits, token, timestamp, hm, ha, hdec, hage⟩
    simp [hm, ha, hdec, hage, constantTimeCompare]

/-- What `server.authorize` does with a header signed at a timestamp that is not negative
and fits in 64 bits, when the token is well formed and decodes to the MAC. -/
theorem authorize_signed (L : Lib) (config : Config) (now t : Int) (method path : GoString)
    (b : Bool) (mac : GoString) (ht0 : 0 ≤ t) (ht1 : t < 9223372036854775808)
    (hne : L.encodeToString mac ≠ []) (hnl : ∀ c ∈ L.encodeToString mac, c ≠ 10)
    (hdec : L.decodeString (L.encodeToString mac) = .ok mac) :
    server.authorize L config now
        ⟨method, path, str "HMAC v1 " ++ formatInt t ++ [32] ++ L.encodeToString mac, b⟩
      = if mac = L.hmacSHA256 config.Key (descriptor t method path) then
          if requestAgeMismatch now t config.MaxRequestAge then .error .hmacRequestAgeMismatch
          else .ok ()
        else .error .hmacInvalid := by
  unfold server.authorize
  simp only [matchAuthHeader_signed t _ ht0 hne hnl, atoi_formatInt t ht0 ht1, hdec,
    constantTimeCompare]
  by_cases heq : mac = L.hmacSHA256 config.Key (descriptor t method path)
  · simp [heq]
  · simp [heq]

/-! ## Signing and authorization -/

set_option maxRecDepth 1000000

/-- What the server reads of a request without a query string: its target is the path. -/
theorem received_of_no_query (L : Lib) (key : GoString) (t : Int) (req : ClientRequest)
    (hq : req.URL.RawQuery = []) :
    received L key t req
      = ⟨req.Method, req.URL.Path,
          str "HMAC v1 " ++ formatInt t ++ [32]
            ++ L.encodeToString (L.hmacSHA256 key (descriptor t req.Method req.URL.Path)),
          false⟩ := by
  simp [received, URL.requestURI, hq, Client.addAuthHeader]

/-- C1, as amended: for every secret, method and path, every timestamp `t` with
`0 ≤ t < 2 ^ 53` and every server clock `now` below `2 ^ 53` in magnitude, the header that
`Client.addAuthHeader` builds at clock time `t` is accepted by `server.authorize` for the
request with the same method and path and the same secret whenever
`|now - t| ≤ MaxRequestAge`; base64 decoding inverts the encoding of the MAC, whose text is
non-empty and has no line feed. -/
theorem sign_authorize_roundtrip (L : Lib) (config : Config) (method path : GoString)
    (t now : Int) (ht0 : 0 ≤ t) (ht1 : t < 9007199254740992)
    (hn0 : -9007199254740992 < now) (hn1 : now < 9007199254740992)
    (hage : |now - t| ≤ config.MaxRequestAge)
    (hne : L.encodeToString (L.hmacSHA256 config.Key (descriptor t method path)) ≠ [])
    (hnl : ∀ c ∈ L.encodeToString (L.hmacSHA256 config.Key (descriptor t method path)), c ≠ 10)
    (hdec : L.decodeString (L.encodeToString (L.hmacSHA256 config.Key (descriptor t method path)))
      = .ok (L.hmacSHA256 config.Key (descriptor t method path))) :
    server.authorize L config now (received L config.Key t ⟨method, ⟨path, []⟩⟩) = .ok () := by
  rw [received_of_no_query L config.Key t _ rfl,
    authorize_signed L config now t method path false _ ht0 (by omega) hne hnl hdec,
    requestAgeMismatch_of_fresh now t _ (by omega) (by omega) hage]
  simp

/-- Witness of C1: secret `k`, `PUT /clip/abc123`, signed at 1700000000 and verified 30
seconds later with a window of 60 seconds, over the standard library. -/
theorem sign_authorize_roundtrip_witness :
    server.authorize stdLib ⟨str "k", 60, str "/var/cache/pcopy"⟩ 1700000030
      (received stdLib (str "k") 1700000000 ⟨str "PUT", ⟨str "/clip/abc123", []⟩⟩) = .ok () :=
  sign_authorize_roundtrip stdLib ⟨str "k", 60, str "/var/cache/pcopy"⟩ (str "PUT")
    (str "/clip/abc123") 1700000000 1700000030 (by decide) (by decide) (by decide) (by decide)
    (by decide) (by decide) (by decide) (by decide)

/-- C1 fails as stated: at clock time `-1` the client writes the header `HMAC v1 -1 ...`,
which the pattern of the server does not match, although the server clock `0` is within the
window of 60 seconds and base64 decoding inverts the encoding of the MAC. -/
theorem sign_authorize_roundtrip_fails_before_epoch :
    |(0 : Int) - (-1)| ≤ 60
      ∧ stdLib.decodeString (stdLib.encodeToString
          (stdLib.hmacSHA256 (str "k") (descriptor (-1) (str "PUT") (str "/clip/abc123"))))
        = .ok (stdLib.hmacSHA256 (str "k") (descriptor (-1) (str "PUT") (str "/clip/abc123")))
      ∧ server.authorize stdLib ⟨str "k", 60, str "/var/cache/pcopy"⟩ 0
          (received stdLib (str "k") (-1) ⟨str "PUT", ⟨str "/clip/abc123", []⟩⟩)
        = .error .authHeaderMissing := by
  decide

/-- Beyond `2 ^ 53` the `float64` arithmetic of the age check is not exact: a header signed at
`2 ^ 53 + 1` is rejected at clock `2 ^ 53 + 2` with a window of one second. -/
theorem sign_authorize_roundtrip_fails_beyond_float64 :
    |(9007199254740994 : Int) - 9007199254740993| ≤ 1
      ∧ server.authorize stdLib ⟨str "k", 1, str "/var/cache/pcopy"⟩ 9007199254740994
          (received stdLib (str "k") 9007199254740993 ⟨str "PUT", ⟨str "/clip/abc123", []⟩⟩)
        = .error .hmacRequestAgeMismatch := by
  decide

/-- C2, as amended: when the clock is not negative and clock plus `MaxRequestAge` is below
`2 ^ 53` (the `float64` arithmetic of the age check is then exact), `server.authorize` returns
nil if and only if the header is `HMAC v1 <digits> <token>` (one or more digits, one or more
bytes other than a line feed), the digits spell a timestamp below `2 ^ 63`, the token
base64-decodes to the HMAC of `timestamp:method:path` under the secret, and
`|now - timestamp| ≤ MaxRequestAge`; in every other case it returns an error. A correctly
signed header with timestamp `now - (MaxRequestAge + 1)` or `now + (MaxRequestAge + 1)` is
rejected; one with timestamp `now - (MaxRequestAge - 1)` or `now + (MaxRequestAge - 1)` is
accepted when `MaxRequestAge ≥ 1` and that timestamp is not negative (base64 decoding
inverting the encoding of the MAC, whose text is non-empty and has no line feed). -/
theorem authorize_accepts_iff (L : Lib) (config : Config) (now : Int) (hnow : 0 ≤ now)
    (hwin : now + config.MaxRequestAge < 9007199254740992) :
    (∀ r : Request, server.authorize L config now r = .ok () ↔
      ∃ digits token, r.Authorization = str "HMAC v1 " ++ digits ++ 32 :: token
        ∧ digits ≠ [] ∧ (∀ c ∈ digits, 48 ≤ c ∧ c ≤ 57)
        ∧ token ≠ [] ∧ (∀ c ∈ token, c ≠ 10)
        ∧ digitsValue digits < 9223372036854775808
        ∧ L.decodeString token = .ok (L.hmacSHA256 config.Key
            (descriptor (digitsValue digits) r.Method r.RequestURI))
        ∧ |now - digitsValue digits| ≤ config.MaxRequestAge)
    ∧ (∀ r : Request, server.authorize L config now r ≠ .ok () →
        ∃ l, server.authorize L config now r = .error l)
    ∧ (∀ (method path : GoString) (t : Int),
        t = now - (config.MaxRequestAge + 1) ∨ t = now + (config.MaxRequestAge + 1) →
        server.authorize L config now (received L config.Key t ⟨method, ⟨path, []⟩⟩) ≠ .ok ())
    ∧ (∀ (method path : GoString) (t : Int),
        t = now - (config.MaxRequestAge - 1) ∨ t = now + (config.MaxRequestAge - 1) →
        1 ≤ config.MaxRequestAge → 0 ≤ t →
        L.encodeToString (L.hmacSHA256 config.Key (descriptor t method path)) ≠ [] →
        (∀ c ∈ L.encodeToString (L.hmacSHA256 config.Key (descriptor t method path)), c ≠ 10) →
        L.decodeString (L.encodeToString (L.hmacSHA256 config.Key (descriptor t method path)))
          = .ok (L.hmacSHA256 config.Key (descriptor t method path)) →
        server.authorize L config now (received L config.Key t ⟨method, ⟨path, []⟩⟩) = .ok ()) := by
  have hiff : ∀ r : Request, server.authorize L config now r = .ok () ↔
      ∃ digits token, r.Authorization = str "HMAC v1 " ++ digits ++ 32 :: token
        ∧ digits ≠ [] ∧ (∀ c ∈ digits, 48 ≤ c ∧ c ≤ 57)
        ∧ token ≠ [] ∧ (∀ c ∈ token, c ≠ 10)
        ∧ digitsValue digits < 9223372036854775808
        ∧ L.decodeString token = .ok (L.hmacSHA256 config.Key
            (descriptor (digitsValue digits) r.Method r.RequestURI))
        ∧ |now - digitsValue digits| ≤ config.MaxRequestAge := by
    intro r
    rw [authorize_eq_ok_iff]
    constructor
    · rintro ⟨digits, token, timestamp, hm, ha, hdec, hage⟩
      obtain ⟨heq, hne, hd, htne, hnl⟩ := (matchAuthHeader_eq_some_iff _ _ _).mp hm
      rw [atoi_digits digits hne hd] at ha
      by_cases hv : digitsValue digits < 9223372036854775808
      · simp only [hv, if_true, Option.some.injEq] at ha
        subst ha
        refine ⟨digits, token, heq, hne, hd, htne, hnl, hv, hdec, ?_⟩
        have := (requestAgeMismatch_iff now (digitsValue digits) config.MaxRequestAge hnow
          (by omega) hwin).not.mp (by rw [hage]; simp)
        omega
      · simp [hv] at ha
    · rintro ⟨digits, token, heq, hne, hd, htne, hnl, hv, hdec, hage⟩
      refine ⟨digits, token, (digitsValue digits : Int),
        (matchAuthHeader_eq_some_iff _ _ _).mpr ⟨heq, hne, hd, htne, hnl⟩, ?_, hdec, ?_⟩
      · rw [atoi_digits digits hne hd]
        simp [hv]
      · have := (requestAgeMismatch_iff now (digitsValue digits) config.MaxRequestAge hnow
          (by omega) hwin).not.mpr (by omega)
        simpa using this
  refine ⟨hiff, ?_, ?_, ?_⟩
  · intro r hr
    cases h : server.authorize L config now r with
    | error l => exact ⟨l, rfl⟩
    | ok u => exact absurd h hr
  · intro method path t ht hok
    rw [received_of_no_query L config.Key t _ rfl, authorize_eq_ok_iff] at hok
    obtain ⟨digits, token, timestamp, hm, ha, _, hage⟩ := hok
    obtain ⟨ht0, hdig, _⟩ := matchAuthHeader_signed_inv t _ _ _ hm
    subst hdig
    rw [formatInt_of_nonneg t ht0, atoi_digits _ (formatNat_ne_nil _) (formatNat_digits _),
      digitsValue_formatNat] at ha
    have habs : ((t.natAbs : Nat) : Int) = t := by omega
    by_cases hv : t.natAbs < 9223372036854775808
    · simp only [hv, if_true, Option.some.injEq, habs] at ha
      subst ha
      have := (requestAgeMismatch_iff now t config.MaxRequestAge hnow ht0 hwin).not.mp
        (by rw [hage]; simp)
      rw [not_lt, abs_le] at this
      rcases ht with rfl | rfl <;> omega
    · simp [hv] at ha
  · intro method path t ht hM ht0 hne hnl hdec
    have hfresh : |now - t| ≤ config.MaxRequestAge := by
      rw [abs_le]
      rcases ht with rfl | rfl <;> constructor <;> omega
    have ht1 : t < 9007199254740992 := by
      rcases ht with rfl | rfl <;> omega
    rw [received_of_no_query L config.Key t _ rfl,
      authorize_signed L config now t method path false _ ht0 (by omega) hne hnl hdec,
      requestAgeMismatch_of_fresh now t _ (by omega) (by omega) hfresh]
    simp

/-- Witness of C2: the clock 1700000000 and a window of 60 seconds. -/
theorem authorize_accepts_iff_witness :
    server.authorize stdLib ⟨str "k", 60, str "/var/cache/pcopy"⟩ 1700000000
        (received stdLib (str "k") (1700000000 - (60 + 1)) ⟨str "PUT", ⟨str "/clip/abc123", []⟩⟩)
      ≠ .ok ()
    ∧ server.authorize stdLib ⟨str "k", 60, str "/var/cache/pcopy"⟩ 1700000000
        (received stdLib (str "k") (1700000000 - (60 - 1)) ⟨str "PUT", ⟨str "/clip/abc123", []⟩⟩)
      = .ok () :=
  ⟨(authorize_accepts_iff stdLib ⟨str "k", 60, str "/var/cache/pcopy"⟩ 1700000000 (by decide)
      (by decide)).2.2.1 (str "PUT") (str "/clip/abc123") _ (Or.inl rfl),
    (authorize_accepts_iff stdLib ⟨str "k", 60, str "/var/cache/pcopy"⟩ 1700000000 (by decide)
      (by decide)).2.2.2 (str "PUT") (str "/clip/abc123") _ (Or.inl rfl) (by decide) (by decide)
      (by decide) (by decide) (by decide)⟩

/-- C2 fails as stated: with `MaxRequestAge = 0` the timestamp `now - (MaxRequestAge - 1)` is
`now + 1`, and a correctly signed header with that timestamp is rejected by the age check. -/
theorem authorize_accepts_iff_fails :
    (1700000000 : Int) - (0 - 1) = 1700000001
      ∧ server.authorize stdLib ⟨str "k", 0, str "/var/cache/pcopy"⟩ 1700000000
          (received stdLib (str "k") (1700000000 - (0 - 1))
            ⟨str "PUT", ⟨str "/clip/abc123", []⟩⟩)
        = .error .hmacRequestAgeMismatch := by
  decide

/-- Beyond `2 ^ 53` the age check is not the exact comparison: at clock `2 ^ 53` with a window
of 0 a correctly signed header with timestamp `2 ^ 53 + 1` is accepted, one second off, since
`float64` rounds that timestamp to `2 ^ 53`. -/
theorem authorize_accepts_stale_beyond_float64 :
    server.authorize stdLib ⟨str "k", 0, str "/var/cache/pcopy"⟩ 9007199254740992
        (received stdLib (str "k") 9007199254740993 ⟨str "PUT", ⟨str "/clip/abc123", []⟩⟩)
      = .ok ()
    ∧ ¬ (|(9007199254740992 : Int) - 9007199254740993| ≤ 0) := by
  decide

/-- C3: the header that carries the MAC of `(t, m, p)` under the secret is verified against a
request whose timestamp, method and path `(t', m', p')` differ from it in exactly one place.
Provided HMAC under this key gives different digests for the two descriptors when these
differ, and base64 decoding inverts the encoding of the MAC, `server.authorize` returns an
error, whatever the clock and the window; and when the header still passes the pattern and
the number conversion, it is the MAC comparison that fails. -/
theorem tampered_request_rejected (L : Lib) (config : Config) (now t t' : Int)
    (m m' p p' : GoString) (b : Bool)
    (hone : (t ≠ t' ∧ m = m' ∧ p = p') ∨ (t = t' ∧ m ≠ m' ∧ p = p')
      ∨ (t = t' ∧ m = m' ∧ p ≠ p'))
    (hcoll : descriptor t m p ≠ descriptor t' m' p' →
      L.hmacSHA256 config.Key (descriptor t m p) ≠ L.hmacSHA256 config.Key (descriptor t' m' p'))
    (hdec : L.decodeString (L.encodeToString (L.hmacSHA256 config.Key (descriptor t m p)))
      = .ok (L.hmacSHA256 config.Key (descriptor t m p))) :
    server.authorize L config now
        ⟨m', p', str "HMAC v1 " ++ formatInt t' ++ [32]
          ++ L.encodeToString (L.hmacSHA256 config.Key (descriptor t m p)), b⟩ ≠ .ok ()
      ∧ (0 ≤ t' → t' < 9223372036854775808 →
          L.encodeToString (L.hmacSHA256 config.Key (descriptor t m p)) ≠ [] →
          (∀ c ∈ L.encodeToString (L.hmacSHA256 config.Key (descriptor t m p)), c ≠ 10) →
          server.authorize L config now
              ⟨m', p', str "HMAC v1 " ++ formatInt t' ++ [32]
                ++ L.encodeToString (L.hmacSHA256 config.Key (descriptor t m p)), b⟩
            = .error .hmacInvalid) := by
  have hmac := hcoll (descriptor_ne_of_one_changed t t' m m' p p' hone)
  constructor
  · intro hok
    rw [authorize_eq_ok_iff] at hok
    obtain ⟨digits, token, timestamp, hm, ha, hdec', _⟩ := hok
    obtain ⟨ht0, hdig, htok⟩ := matchAuthHeader_signed_inv t' _ _ _ hm
    subst hdig htok
    rw [formatInt_of_nonneg t' ht0, atoi_digits _ (formatNat_ne_nil _) (formatNat_digits _),
      digitsValue_formatNat] at ha
    have habs : ((t'.natAbs : Nat) : Int) = t' := by omega
    by_cases hv : t'.natAbs < 9223372036854775808
    · simp only [hv, if_true, Option.some.injEq, habs] at ha
      subst ha
      rw [hdec] at hdec'
      exact hmac (Except.ok.inj hdec')
    · simp [hv] at ha
  · intro ht0 ht1 hne hnl
    rw [authorize_signed L config now t' m' p' b _ ht0 ht1 hne hnl hdec]
    simp [hmac]

/-- Witness of C3, the example of the specification: secret `k`, `PUT /clip/abc123` at
1700000000 is accepted, and the same header is rejected, by the MAC comparison, when the path
is `/clip/abc124`. -/
theorem tampered_request_rejected_witness :
    server.authorize stdLib ⟨str "k", 60, str "/var/cache/pcopy"⟩ 1700000000
        ⟨str "PUT", str "/clip/abc123", str "HMAC v1 " ++ formatInt 1700000000 ++ [32]
          ++ stdLib.encodeToString (stdLib.hmacSHA256 (str "k")
              (descriptor 1700000000 (str "PUT") (str "/clip/abc123"))), true⟩ = .ok ()
      ∧ server.authorize stdLib ⟨str "k", 60, str "/var/cache/pcopy"⟩ 1700000000
        ⟨str "PUT", str "/clip/abc124", str "HMAC v1 " ++ formatInt 1700000000 ++ [32]
          ++ stdLib.encodeToString (stdLib.hmacSHA256 (str "k")
              (descriptor 1700000000 (str "PUT") (str "/clip/abc123"))), true⟩
        = .error .hmacInvalid :=
  ⟨by decide,
    (tampered_request_rejected stdLib ⟨str "k", 60, str "/var/cache/pcopy"⟩ 1700000000
      1700000000 1700000000 (str "PUT") (str "PUT") (str "/clip/abc123") (str "/clip/abc124")
      true (Or.inr (Or.inr ⟨rfl, rfl, by decide⟩)) (by decide) (by decide)).2
      (by decide) (by decide) (by decide) (by decide)⟩

/-- C4, as amended: two triples of timestamp, method and path that differ, with methods that
hold no colon (as the method tokens of HTTP), have different descriptors
`fmt.Sprintf("%d:%s:%s", ...)`; so the MAC of one descriptor is not the MAC of the other
whenever HMAC under the key separates the two descriptors. -/
theorem descriptor_unique (t t' : Int) (m m' p p' : GoString) (hm : 58 ∉ m) (hm' : 58 ∉ m')
    (hne : (t, m, p) ≠ (t', m', p')) :
    descriptor t m p ≠ descriptor t' m' p'
      ∧ ∀ (L : Lib) (key : GoString),
          (descriptor t m p ≠ descriptor t' m' p' →
            L.hmacSHA256 key (descriptor t m p) ≠ L.hmacSHA256 key (descriptor t' m' p')) →
          L.hmacSHA256 key (descriptor t m p) ≠ L.hmacSHA256 key (descriptor t' m' p') := by
  have hd : descriptor t m p ≠ descriptor t' m' p' := by
    intro h
    obtain ⟨h1, h2, h3⟩ := descriptor_injective t t' m m' p p' hm hm' h
    exact hne (by rw [h1, h2, h3])
  exact ⟨hd, fun L key hcoll => hcoll hd⟩

/-- Witness of C4: `PUT /clip/abc123` and `GET /clip/abc123` at the same second. -/
theorem descriptor_unique_witness :
    descriptor 1700000000 (str "PUT") (str "/clip/abc123")
      ≠ descriptor 1700000000 (str "GET") (str "/clip/abc123") :=
  (descriptor_unique 1700000000 1700000000 (str "PUT") (str "GET") (str "/clip/abc123")
    (str "/clip/abc123") (by decide) (by decide) (by decide)).1

/-- C4 fails as stated: the triples `(1, "A:B", "C")` and `(1, "A", "B:C")` differ and have
the same descriptor `1:A:B:C`, hence the same MAC. -/
theorem descriptor_unique_fails :
    ((1 : Int), str "A:B", str "C") ≠ ((1 : Int), str "A", str "B:C")
      ∧ descriptor 1 (str "A:B") (str "C") = descriptor 1 (str "A") (str "B:C")
      ∧ descriptor 1 (str "A:B") (str "C") = str "1:A:B:C"
      ∧ stdLib.hmacSHA256 (str "k") (descriptor 1 (str "A:B") (str "C"))
        = stdLib.hmacSHA256 (str "k") (descriptor 1 (str "A") (str "B:C")) := by
  decide

/-- C5 at the failing input, the request `GET /clip/abc?x=1` signed at 1700000000: the
client signs `1700000000:GET:/clip/abc`, the server recomputes the MAC over
`1700000000:GET:/clip/abc?x=1`, and rejects the header of its own client. -/
theorem query_string_descriptor_mismatch :
    (received stdLib (str "k") 1700000000
        ⟨str "GET", ⟨str "/clip/abc", str "x=1"⟩⟩).RequestURI = str "/clip/abc?x=1"
      ∧ clientDescriptor 1700000000 ⟨str "GET", ⟨str "/clip/abc", str "x=1"⟩⟩
        = str "1700000000:GET:/clip/abc"
      ∧ serverDescriptor 1700000000
          (received stdLib (str "k") 1700000000 ⟨str "GET", ⟨str "/clip/abc", str "x=1"⟩⟩)
        = str "1700000000:GET:/clip/abc?x=1"
      ∧ server.authorize stdLib ⟨str "k", 60, str "/var/cache/pcopy"⟩ 1700000000
          (received stdLib (str "k") 1700000000 ⟨str "GET", ⟨str "/clip/abc", str "x=1"⟩⟩)
        = .error .hmacInvalid := by
  decide

/-- Without a query string the client and the server sign the same bytes. -/
theorem descriptor_agrees_without_query (L : Lib) (key : GoString) (t : Int)
    (req : ClientRequest) (hq : req.URL.RawQuery = []) :
    serverDescriptor t (received L key t req) = clientDescriptor t req := by
  simp [serverDescriptor, clientDescriptor, received, URL.requestURI, hq]

/-! ## File identifiers -/

/-- C6, as amended: for every authorized request for which `os.MkdirAll` of the cache
directory succeeds, a target that is `/clip/` followed by a non-empty identifier over
`[-_a-zA-Z0-9]` is accepted and mapped to the file `CacheDir/<id>` (the handler does not answer
400, touches no other file, opens that file on GET and creates it on PUT), and every other
target is rejected with status 400 and no file is opened or created. -/
theorem clip_identifier_validation (L : Lib) (config : Config) (env : ClipEnv) (now : Int)
    (r : Request) (hauth : server.authorize L config now r = .ok ())
    (hmk : env.mkdirAll = true) :
    (∀ id : GoString, r.RequestURI = str "/clip/" ++ id → id ≠ [] →
        (∀ c ∈ id, c = 45 ∨ c = 95 ∨ (97 ≤ c ∧ c ≤ 122) ∨ (65 ≤ c ∧ c ≤ 90)
          ∨ (48 ≤ c ∧ c ≤ 57)) →
        (server.handleClip L config env now r).status ≠ .fail 400
          ∧ (∀ call ∈ (server.handleClip L config env now r).calls,
              call = .mkdirAll config.CacheDir ∨ call = .openFile (config.CacheDir ++ [47] ++ id)
                ∨ call = .createFile (config.CacheDir ++ [47] ++ id))
          ∧ (r.Method = str "GET" →
              (server.handleClip L config env now r).calls
                = [.mkdirAll config.CacheDir, .openFile (config.CacheDir ++ [47] ++ id)])
          ∧ (r.Method = str "PUT" →
              (server.handleClip L config env now r).calls
                = [.mkdirAll config.CacheDir, .createFile (config.CacheDir ++ [47] ++ id)]))
      ∧ ((¬ ∃ id : GoString, r.RequestURI = str "/clip/" ++ id ∧ id ≠ []
            ∧ ∀ c ∈ id, c = 45 ∨ c = 95 ∨ (97 ≤ c ∧ c ≤ 122) ∨ (65 ≤ c ∧ c ≤ 90)
              ∨ (48 ≤ c ∧ c ≤ 57)) →
          server.handleClip L config env now r = ⟨.fail 400, [.mkdirAll config.CacheDir]⟩) := by
  constructor
  · intro id huri hne hall
    have hm : matchClip r.RequestURI = some id := (matchClip_eq_some_iff _ _).mpr ⟨huri, hne, hall⟩
    have hgp : str "GET" ≠ str "PUT" := by decide
    unfold server.handleClip
    simp only [hauth, hmk, hm]
    by_cases hget : r.Method = str "GET"
    · have hput : r.Method ≠ str "PUT" := by rw [hget]; exact hgp
      simp only [hget]
      cases env.openFile <;> cases env.copy <;> simp [hgp]
    · by_cases hput : r.Method = str "PUT"
      · simp only [hput]
        cases env.createFile <;> cases r.hasBody <;> cases env.copy <;> cases env.closeBody <;>
          simp [hgp.symm]
      · simp [hget, hput]
  · intro hno
    have hm : matchClip r.RequestURI = none := by
      cases h : matchClip r.RequestURI with
      | none => rfl
      | some id => exact absurd ⟨id, (matchClip_eq_some_iff _ _).mp h⟩ hno
    unfold server.handleClip
    simp [hauth, hmk, hm]

/-- Witness of C6, the identifiers of the specification: `abc-123_XYZ` is accepted and the
file `CacheDir/abc-123_XYZ` is created on PUT, `../etc/passwd` and `abc def` are rejected with
status 400 and touch no file. -/
theorem clip_identifier_validation_witness :
    (server.handleClip stdLib ⟨str "k", 60, str "/var/cache/pcopy"⟩ ⟨true, true, true, true, true⟩
        1700000000 (received stdLib (str "k") 1700000000
          ⟨str "PUT", ⟨str "/clip/abc-123_XYZ", []⟩⟩)).calls
      = [.mkdirAll (str "/var/cache/pcopy"),
          .createFile (str "/var/cache/pcopy" ++ [47] ++ str "abc-123_XYZ")]
    ∧ server.handleClip stdLib ⟨str "k", 60, str "/var/cache/pcopy"⟩
        ⟨true, true, true, true, true⟩ 1700000000 (received stdLib (str "k") 1700000000
          ⟨str "PUT", ⟨str "/clip/../etc/passwd", []⟩⟩)
      = ⟨.fail 400, [.mkdirAll (str "/var/cache/pcopy")]⟩
    ∧ server.handleClip stdLib ⟨str "k", 60, str "/var/cache/pcopy"⟩
        ⟨true, true, true, true, true⟩ 1700000000 (received stdLib (str "k") 1700000000
          ⟨str "PUT", ⟨str "/clip/abc def", []⟩⟩)
      = ⟨.fail 400, [.mkdirAll (str "/var/cache/pcopy")]⟩ :=
  ⟨((clip_identifier_validation stdLib ⟨str "k", 60, str "/var/cache/pcopy"⟩
      ⟨true, true, true, true, true⟩ 1700000000 _ (by decide) rfl).1 (str "abc-123_XYZ")
      (by decide) (by decide) (by decide)).2.2.2 (by decide),
    (clip_identifier_validation stdLib ⟨str "k", 60, str "/var/cache/pcopy"⟩
      ⟨true, true, true, true, true⟩ 1700000000 _ (by decide) rfl).2
      (fun ⟨id, h1, h2, h3⟩ => by
        have h : matchClip (str "/clip/../etc/passwd") = some id :=
          (matchClip_eq_some_iff _ _).mpr ⟨h1, h2, h3⟩
        have hn : matchClip (str "/clip/../etc/passwd") = none := by decide
        rw [hn] at h
        exact absurd h (by simp)),
    (clip_identifier_validation stdLib ⟨str "k", 60, str "/var/cache/pcopy"⟩
      ⟨true, true, true, true, true⟩ 1700000000 _ (by decide) rfl).2
      (fun ⟨id, h1, h2, h3⟩ => by
        have h : matchClip (str "/clip/abc def") = some id :=
          (matchClip_eq_some_iff _ _).mpr ⟨h1, h2, h3⟩
        have hn : matchClip (str "/clip/abc def") = none := by decide
        rw [hn] at h
        exact absurd h (by simp))⟩

/-- C6 fails as stated: an authorized request for the target `/clip/notes.txt`, which is not
of the accepted form, is answered with status 500 when `os.MkdirAll` fails. -/
theorem clip_invalid_identifier_status_500 :
    server.authorize stdLib ⟨str "k", 60, str "/var/cache/pcopy"⟩ 1700000000
        (received stdLib (str "k") 1700000000 ⟨str "GET", ⟨str "/clip/notes.txt", []⟩⟩) = .ok ()
      ∧ matchClip (str "/clip/notes.txt") = none
      ∧ server.handleClip stdLib ⟨str "k", 60, str "/var/cache/pcopy"⟩
          ⟨false, true, true, true, true⟩ 1700000000
          (received stdLib (str "k") 1700000000 ⟨str "GET", ⟨str "/clip/notes.txt", []⟩⟩)
        = ⟨.fail 500, [.mkdirAll (str "/var/cache/pcopy")]⟩ := by
  decide

/-! ## Discovery -/

/-- C7, as amended: when the secure attempt fails with `e1` and the insecure retry fails with
`e2`, `Client.Info` returns `e2`, the error of the retry. -/
theorem info_double_failure (L : Lib) (e1 e2 : GoError) (dial : Except GoError (List GoString)) :
    Client.Info L (.error e1) (.error e2) dial = .error e2 := by
  rfl

/-- C7 fails as stated: the secure attempt fails on the certificate, the insecure retry is
refused, and `Client.Info` returns the error of the retry, not the original one. -/
theorem info_double_failure_not_original :
    Client.Info stdLib (.error "x509: certificate signed by unknown authority")
        (.error "connect: connection refused") (.error "connect: connection refused")
      = .error "connect: connection refused"
    ∧ Client.Info stdLib (.error "x509: certificate signed by unknown authority")
        (.error "connect: connection refused") (.error "connect: connection refused")
      ≠ .error "x509: certificate signed by unknown authority" := by
  decide

/-- C8, as amended: a discovery body without a salt, decoded to an `infoResponse` with an
empty `Salt`, is not rejected. The empty string is valid base64, so `Client.Info` returns an
`Info` with an empty salt and no error: with an empty `Cert` when the secure attempt gave that
body, with the captured certificates when the insecure retry did. -/
theorem info_accepts_missing_salt (L : Lib)
    (jsonDecode : GoString → Except GoError infoResponse) (body : GoString)
    (hjson : jsonDecode body = .ok infoResponseWithoutSalt)
    (hempty : L.decodeString [] = .ok []) :
    (∀ insecure dial,
        Client.Info L (Client.retrieveInfo jsonDecode (.ok body)) insecure dial
          = .ok { Cert := [], Salt := [] })
      ∧ (∀ e dial cert, Client.retrieveCert L dial = .ok cert →
          Client.Info L (.error e) (Client.retrieveInfo jsonDecode (.ok body)) dial
            = .ok { Cert := cert, Salt := [] }) := by
  constructor
  · intro insecure dial
    simp [Client.Info, Client.retrieveInfo, hjson, infoResponseWithoutSalt, finishInfo, hempty]
  · intro e dial cert hcert
    simp [Client.Info, Client.retrieveInfo, hjson, infoResponseWithoutSalt, finishInfo, hempty,
      hcert]

/-- Witness of C8: the body `{"version":1}` over the standard base64 decoder. -/
theorem info_accepts_missing_salt_witness :
    Client.Info stdLib
        (Client.retrieveInfo (fun _ => .ok infoResponseWithoutSalt) (.ok (str "\x7b\"version\":1\x7d")))
        (.error "unused") (.error "unused")
      = .ok { Cert := [], Salt := [] } :=
  (info_accepts_missing_salt stdLib (fun _ => .ok infoResponseWithoutSalt)
    (str "\x7b\"version\":1\x7d") rfl (by decide)).1 (.error "unused") (.error "unused")

/-- C8 fails as stated: when the secure attempt yields the `infoResponse` of the body
`{"version":1}`, with its empty `Salt`, `Client.Info` returns an `Info` and no error. -/
theorem info_missing_salt_not_rejected :
    Client.Info stdLib (.ok infoResponseWithoutSalt) (.error "unused") (.error "unused")
      = .ok { Cert := [], Salt := [] }
    ∧ ¬ ∃ err, Client.Info stdLib (.ok infoResponseWithoutSalt) (.error "unused")
        (.error "unused") = .error err := by
  refine ⟨by decide, ?_⟩
  rintro ⟨err, h⟩
  have h' : Client.Info stdLib (.ok infoResponseWithoutSalt) (.error "unused") (.error "unused")
      = .ok { Cert := [], Salt := [] } := by decide
  rw [h'] at h
  exact absurd h (by simp)

/-- The loop of `retrieveCert` appends to the buffer one block per certificate, in order. -/
theorem encodeCerts_eq (L : Lib) (certs blocks : List GoString) (b : GoString)
    (h : List.Forall₂ (fun cert block => L.pemEncode (str "CERTIFICATE") cert = .ok block)
      certs blocks) :
    encodeCerts L certs b = .ok (b ++ blocks.flatten) := by
  induction h generalizing b with
  | nil => simp [encodeCerts]
  | cons hhead _ ih =>
    simp only [encodeCerts, hhead]
    rw [ih]
    simp

/-- C9: (a) when the secure attempt succeeds, `Client.Info` returns `Cert` empty and `Salt`
the base64-decoded salt of that response; (b) when the secure attempt fails and the insecure
retry and the certificate capture succeed, `Cert` is the concatenation, in the order of
presentation, of one PEM `CERTIFICATE` block per certificate of the peer, not empty when the
peer presented a certificate (PEM blocks being non-empty), and `Salt` is the base64-decoded
salt of the insecure response. -/
theorem info_pins_only_on_fallback (L : Lib) (secure insecure : Except GoError infoResponse)
    (dial : Except GoError (List GoString)) :
    (∀ resp salt, secure = .ok resp → L.decodeString resp.Salt = .ok salt →
        Client.Info L secure insecure dial = .ok { Cert := [], Salt := salt })
      ∧ (∀ e resp certs blocks salt, secure = .error e → insecure = .ok resp →
          dial = .ok certs →
          List.Forall₂ (fun cert block => L.pemEncode (str "CERTIFICATE") cert = .ok block)
            certs blocks →
          L.decodeString resp.Salt = .ok salt →
          Client.Info L secure insecure dial = .ok { Cert := blocks.flatten, Salt := salt }
            ∧ (certs ≠ [] → (∀ block ∈ blocks, block ≠ []) → blocks.flatten ≠ [])) := by
  constructor
  · intro resp salt hs hd
    simp [Client.Info, hs, finishInfo, hd]
  · intro e resp certs blocks salt hs hi hdial hpem hd
    constructor
    · simp [Client.Info, hs, hi, hdial, Client.retrieveCert, encodeCerts_eq L certs blocks [] hpem,
        finishInfo, hd]
    · intro hne hblocks hflat
      cases hpem with
      | nil => exact hne rfl
      | @cons cert block certs' blocks' hhead _ =>
        have := hblocks block (by simp)
        simp at hflat
        exact this hflat.1

/-- Witness of C9: a trusted server with salt `AAEC`, and an untrusted one that presents
two certificates. -/
theorem info_pins_only_on_fallback_witness :
    Client.Info stdLib (.ok ⟨1, str "AAEC"⟩) (.error "unused") (.error "unused")
      = .ok { Cert := [], Salt := [0, 1, 2] }
    ∧ Client.Info stdLib (.error "x509: certificate signed by unknown authority")
        (.ok ⟨1, str "AAEC"⟩) (.ok [[1, 2, 3], [4]])
      = .ok { Cert := str "-----BEGIN CERTIFICATE-----\nAQID\n-----END CERTIFICATE-----\n"
                ++ str "-----BEGIN CERTIFICATE-----\nBA==\n-----END CERTIFICATE-----\n",
              Salt := [0, 1, 2] } :=
  ⟨(info_pins_only_on_fallback stdLib (.ok ⟨1, str "AAEC"⟩) (.error "unused")
      (.error "unused")).1 ⟨1, str "AAEC"⟩ [0, 1, 2] rfl (by decide),
    by
      have h := ((info_pins_only_on_fallback stdLib
        (.error "x509: certificate signed by unknown authority") (.ok ⟨1, str "AAEC"⟩)
        (.ok [[1, 2, 3], [4]])).2 "x509: certificate signed by unknown authority"
        ⟨1, str "AAEC"⟩ [[1, 2, 3], [4]]
        [str "-----BEGIN CERTIFICATE-----\nAQID\n-----END CERTIFICATE-----\n",
          str "-----BEGIN CERTIFICATE-----\nBA==\n-----END CERTIFICATE-----\n"]
        [0, 1, 2] rfl rfl rfl
        (List.Forall₂.cons (by decide) (List.Forall₂.cons (by decide) List.Forall₂.nil))
        (by decide)).1
      simpa using h⟩

/-! ## Content types -/

theorem contentType_ne_contentDisposition : str "Content-Type" ≠ str "Content-Disposition" := by
  decide

/-- A string that starts with `old` starts with `new` after `strings.ReplaceAll`. -/
theorem replaceAll_of_hasPrefixOf (s old new : GoString) (hold : old ≠ [])
    (h : hasPrefixOf s old = true) : ∃ rest, replaceAll s old new = new ++ rest := by
  unfold hasPrefixOf at h
  cases s with
  | nil =>
    cases old with
    | nil => exact absurd rfl hold
    | cons o os => simp [List.isPrefixOf] at h
  | cons c cs =>
    refine ⟨replaceAllFrom old new (old.length - 1) cs, ?_⟩
    simp [replaceAll, replaceAllFrom, h]

/-- Without the download flag the content type that `Write` settles on does not start with
`text/html`, whatever `http.DetectContentType` returned. -/
theorem fixContentType_inline_not_html (contentType : GoString) :
    hasPrefixOf (fixContentType false contentType) (str "text/html") = false := by
  unfold fixContentType
  by_cases h : hasPrefixOf contentType (str "text/html") = true
  · obtain ⟨rest, hrest⟩ := replaceAll_of_hasPrefixOf contentType (str "text/html")
      (str "text/plain") (by decide) h
    simp only [Bool.not_false, if_true, h, hrest]
    simp [hasPrefixOf, str, List.isPrefixOf]
  · simp only [Bool.not_false, if_true, h]
    by_cases ho : contentType = str "application/octet-stream"
    · simp only [ho, if_true]
      decide
    · simp only [ho, if_false]
      simpa using h

/-- The first write without the download flag never sets a `Content-Type` that starts with
`text/html`: it sets the settled content type when that is not empty, and no header else. -/
theorem write_inline_never_html (M : MimeLib) (w : ContentTypeWriter) (p : GoString)
    (hs : w.sniffed = false) (hd : w.download = false) :
    hasPrefixOf (fixContentType false (M.detectContentType p)) (str "text/html") = false
      ∧ (ContentTypeWriter.Write M w p).w.header
        = if fixContentType false (M.detectContentType p) ≠ [] then
            (w.w.setHeader (str "Content-Type")
              (fixContentType false (M.detectContentType p))).header
          else w.w.header := by
  refine ⟨fixContentType_inline_not_html _, ?_⟩
  unfold ContentTypeWriter.Write
  simp only [hs, hd]
  by_cases h : fixContentType false (M.detectContentType p) = []
  · simp [h, ResponseWriter.write]
  · simp [h, ResponseWriter.write]

/-- Writes after the first set no headers: they only pass the bytes on. -/
theorem write_after_first (M : MimeLib) (w : ContentTypeWriter) (p : GoString)
    (hs : w.sniffed = true) :
    ContentTypeWriter.Write M w p = { w with w := { w.w with body := w.w.body ++ p } } := by
  simp [ContentTypeWriter.Write, hs, ResponseWriter.write]

/-- Every write leaves the writer sniffed. -/
theorem write_sniffed (M : MimeLib) (w : ContentTypeWriter) (p : GoString) :
    (ContentTypeWriter.Write M w p).sniffed = true := by
  unfold ContentTypeWriter.Write
  by_cases hs : w.sniffed = true
  · simp [hs]
  · simp [hs]

/-- C10 at the failing inputs, a first write with the download flag set whose payload is
detected as `text/html...`: `Write` sets exactly the detected type as `Content-Type`, so the
header starts with `text/html`. -/
theorem write_download_sends_html (M : MimeLib) (w : ContentTypeWriter) (p : GoString)
    (hs : w.sniffed = false) (hd : w.download = true)
    (hhtml : hasPrefixOf (M.detectContentType p) (str "text/html") = true) :
    (ContentTypeWriter.Write M w p).w.header (str "Content-Type")
        = some (M.detectContentType p)
      ∧ ∃ value, (ContentTypeWriter.Write M w p).w.header (str "Content-Type") = some value
          ∧ hasPrefixOf value (str "text/html") = true := by
  have hne : M.detectContentType p ≠ [] := by
    intro h
    rw [h] at hhtml
    exact absurd hhtml (by decide)
  have hset : (ContentTypeWriter.Write M w p).w.header (str "Content-Type")
      = some (M.detectContentType p) := by
    unfold ContentTypeWriter.Write
    simp [hs, hd, fixContentType, hne, ResponseWriter.write, ResponseWriter.setHeader,
      contentType_ne_contentDisposition]
  exact ⟨hset, _, hset, hhtml⟩

/-- Witness of C10: the download of `index` whose first bytes are `<html>`, detected as
`text/html; charset=utf-8`, is sent with that content type. -/
theorem write_download_sends_html_witness :
    (ContentTypeWriter.Write htmlMimeLib
        (NewContentTypeWriter ⟨fun _ => none, []⟩ (str "index") true) (str "<html>")).w.header
        (str "Content-Type")
      = some (str "text/html; charset=utf-8") :=
  (write_download_sends_html htmlMimeLib
    (NewContentTypeWriter ⟨fun _ => none, []⟩ (str "index") true) (str "<html>") rfl rfl
    (by decide)).1

end Pcopy
